import Mathlib

/-!
# Verification of the data-validation engine (`src/app/dashboard/page.tsx`)

Shallow embedding of the validation and rule-consistency engine of the
repository.  Cell values are modelled by `JsValue`; JavaScript's implicit
string/number coercions (`String(x)`, `Number(x)`, truthiness) are modelled
on the decimal-integer fragment, which covers every value the claims and
the validation code manipulate (hex/float/exponent numeric literals are out
of the modelled fragment).  `JSON.parse` is modelled by an executable
recursive-descent parser `jsonParse` over the same fragment.
-/

set_option maxHeartbeats 1000000

namespace DataAlchemist

/-- A JavaScript runtime value as stored in a loaded spreadsheet row. -/
inductive JsValue where
  | undef
  | null
  | bool (b : Bool)
  | num (n : Int)
  | str (s : String)
  | arr (elems : List JsValue)
  | obj (fields : List (String × JsValue))

/-- `v === undefined` (the only places the code compares values directly
compare against `undefined` or `null`). -/
def JsValue.isUndef : JsValue → Bool
  | .undef => true
  | _ => false

/-- `v === null`. -/
def JsValue.isNull : JsValue → Bool
  | .null => true
  | _ => false

/-! ### Models of the JavaScript string methods

The string methods the engine uses (`trim`, `split`, `includes`,
`startsWith`, `endsWith`, `replace`, `toLowerCase`, `join`, `slice`) are
modelled by executable functions over the character list of the string
(`String.data`), on the ASCII fragment the data uses. -/

/-- JS whitespace (the ASCII fragment relevant here). -/
def isWsChar (c : Char) : Bool :=
  c == ' ' || c == '\t' || c == '\n' || c == '\r'

/-- `s.trim()`. -/
def jsTrim (s : String) : String :=
  ⟨(((s.data.dropWhile isWsChar).reverse.dropWhile isWsChar).reverse)⟩

/-- Is `pat` a prefix of `s`? -/
def hasPrefixChars : List Char → List Char → Bool
  | [], _ => true
  | _ :: _, [] => false
  | p :: ps, c :: cs => p == c && hasPrefixChars ps cs

/-- `s.startsWith(pat)`. -/
def jsStartsWith (s pat : String) : Bool :=
  hasPrefixChars pat.data s.data

/-- `s.endsWith(pat)`. -/
def jsEndsWith (s pat : String) : Bool :=
  hasPrefixChars pat.data.reverse s.data.reverse

/-- Does `s` contain `pat` as a substring (`s.includes(pat)`)? -/
def hasSubstrChars (pat : List Char) : List Char → Bool
  | [] => hasPrefixChars pat []
  | c :: cs => hasPrefixChars pat (c :: cs) || hasSubstrChars pat cs

/-- `s.split(sep)` for a single-character separator. -/
def splitChars (sep : Char) : List Char → List (List Char)
  | [] => [[]]
  | c :: rest =>
    if c == sep then [] :: splitChars sep rest
    else
      match splitChars sep rest with
      | h :: t => (c :: h) :: t
      | [] => [[c]]

/-- `s.split(sep)` for a single-character separator, as strings. -/
def jsSplit (s : String) (sep : Char) : List String :=
  (splitChars sep s.data).map (fun cs => ⟨cs⟩)

/-- `s.replace(/a/g, b)` for single characters (the engine only replaces
newlines by commas). -/
def jsReplaceChar (s : String) (a b : Char) : String :=
  ⟨s.data.map (fun c => if c == a then b else c)⟩

/-- `parts.join(sep)`. -/
def jsJoin (sep : String) : List String → String
  | [] => ""
  | [p] => p
  | p :: rest => p ++ sep ++ jsJoin sep rest

mutual

/-- Model of JavaScript `String(v)` (array elements join with `,`;
`null`/`undefined` inside an array render as the empty string). -/
def jsToString : JsValue → String
  | .undef => "undefined"
  | .null => "null"
  | .bool b => cond b "true" "false"
  | .num n => toString n
  | .str s => s
  | .arr l => jsJoin "," (jsArrParts l)
  | .obj _ => "[object Object]"

/-- `Array.prototype.join`'s rendering of the individual elements. -/
def jsArrParts : List JsValue → List String
  | [] => []
  | .undef :: rest => "" :: jsArrParts rest
  | .null :: rest => "" :: jsArrParts rest
  | v :: rest => jsToString v :: jsArrParts rest

end

/-- Digits of a decimal numeral to a natural number. -/
def decDigits (cs : List Char) : Nat :=
  cs.foldl (fun acc c => acc * 10 + (c.toNat - 48)) 0

/-- Parse a nonempty all-digit character list. -/
def parseDigits (cs : List Char) : Option Nat :=
  if cs ≠ [] ∧ cs.all Char.isDigit then some (decDigits cs) else none

/-- Model of JavaScript `Number(s)` for a string `s`, on the optional-sign
decimal-integer fragment.  `none` stands for `NaN`.  Empty or all-whitespace
strings coerce to `0`, exactly as in JavaScript. -/
def strToNum (s : String) : Option Int :=
  match (jsTrim s).data with
  | [] => some 0
  | '-' :: rest => (parseDigits rest).map (fun n => -(n : Int))
  | '+' :: rest => (parseDigits rest).map (fun n => (n : Int))
  | t => (parseDigits t).map (fun n => (n : Int))

/-- Model of JavaScript `Number(v)` for an arbitrary value (`none` = `NaN`).
Arrays coerce through their string rendering, objects give `NaN`. -/
def jsNumber : JsValue → Option Int
  | .num n => some n
  | .str s => strToNum s
  | .null => some 0
  | .bool b => some (cond b 1 0)
  | .undef => none
  | .arr l => strToNum (jsToString (.arr l))
  | .obj _ => none

/-- JavaScript truthiness of a value. -/
def jsTruthy : JsValue → Bool
  | .undef => false
  | .null => false
  | .bool b => b
  | .num n => n != 0
  | .str s => s != ""
  | .arr _ => true
  | .obj _ => true

/-! ## Model of `JSON.parse`

Recursive-descent parser for JSON over the decimal-integer number fragment
(fractions/exponents, unicode escapes and duplicate-key merging are outside
the modelled fragment; none of the strings the engine is verified on use
them).  `none` models a thrown `SyntaxError`. -/

/-- Skip JSON whitespace. -/
def jsonWs : List Char → List Char
  | c :: rest => if c = ' ' ∨ c = '\t' ∨ c = '\n' ∨ c = '\r' then jsonWs rest else c :: rest
  | [] => []

/-- Parse the body of a JSON string literal (opening quote consumed). -/
def jsonStringBody : List Char → List Char → Option (String × List Char)
  | [], _ => none
  | '"' :: rest, acc => some (⟨acc.reverse⟩, rest)
  | '\\' :: e :: rest, acc =>
      if e = '"' then jsonStringBody rest ('"' :: acc)
      else if e = '\\' then jsonStringBody rest ('\\' :: acc)
      else if e = '/' then jsonStringBody rest ('/' :: acc)
      else if e = 'n' then jsonStringBody rest ('\n' :: acc)
      else if e = 't' then jsonStringBody rest ('\t' :: acc)
      else if e = 'r' then jsonStringBody rest ('\r' :: acc)
      else none
  | [_], _ => none
  | c :: rest, acc => jsonStringBody rest (c :: acc)

/-- Parse an unsigned JSON integer numeral. -/
def jsonNat (cs : List Char) : Option (Nat × List Char) :=
  let ds := cs.takeWhile Char.isDigit
  if ds = [] then none
  else
    match cs.dropWhile Char.isDigit with
    | '.' :: _ => none
    | 'e' :: _ => none
    | 'E' :: _ => none
    | rest => some (decDigits ds, rest)

/-- Parse a JSON integer numeral with optional sign. -/
def jsonInt : List Char → Option (Int × List Char)
  | '-' :: rest => (jsonNat rest).map fun p => (-(p.1 : Int), p.2)
  | cs => (jsonNat cs).map fun p => ((p.1 : Int), p.2)

mutual

/-- Parse one JSON value. -/
def jsonVal : Nat → List Char → Option (JsValue × List Char)
  | 0, _ => none
  | fuel + 1, cs =>
    match jsonWs cs with
    | 'n' :: 'u' :: 'l' :: 'l' :: rest => some (.null, rest)
    | 't' :: 'r' :: 'u' :: 'e' :: rest => some (.bool true, rest)
    | 'f' :: 'a' :: 'l' :: 's' :: 'e' :: rest => some (.bool false, rest)
    | '"' :: rest => (jsonStringBody rest []).map fun p => (.str p.1, p.2)
    | '[' :: rest =>
        (match jsonWs rest with
         | ']' :: r2 => some (.arr [], r2)
         | r2 => (jsonElems fuel r2).map fun p => (.arr p.1, p.2))
    | '{' :: rest =>
        (match jsonWs rest with
         | '}' :: r2 => some (.obj [], r2)
         | r2 => (jsonMembers fuel r2).map fun p => (.obj p.1, p.2))
    | rest => (jsonInt rest).map fun p => (.num p.1, p.2)

/-- Parse the elements of a nonempty JSON array (opening bracket consumed). -/
def jsonElems : Nat → List Char → Option (List JsValue × List Char)
  | 0, _ => none
  | fuel + 1, cs =>
    match jsonVal fuel cs with
    | none => none
    | some (v, rest) =>
      match jsonWs rest with
      | ',' :: r2 => (jsonElems fuel r2).map fun p => (v :: p.1, p.2)
      | ']' :: r2 => some ([v], r2)
      | _ => none

/-- Parse the members of a nonempty JSON object (opening brace consumed). -/
def jsonMembers : Nat → List Char → Option (List (String × JsValue) × List Char)
  | 0, _ => none
  | fuel + 1, cs =>
    match jsonWs cs with
    | '"' :: rest =>
      (match jsonStringBody rest [] with
       | none => none
       | some (k, r1) =>
         match jsonWs r1 with
         | ':' :: r2 =>
           (match jsonVal fuel r2 with
            | none => none
            | some (v, r3) =>
              match jsonWs r3 with
              | ',' :: r4 => (jsonMembers fuel r4).map fun p => ((k, v) :: p.1, p.2)
              | '}' :: r4 => some ([(k, v)], r4)
              | _ => none)
         | _ => none)
    | _ => none

end

/-- Model of `JSON.parse`: parse one value, require only whitespace after. -/
def jsonParse (s : String) : Option JsValue :=
  match jsonVal (s.length + 1) s.toList with
  | some (v, rest) => if jsonWs rest = [] then some v else none
  | none => none

/-- `NaN`-aware `<` on coerced numbers: any comparison against `NaN`
(`none`) is false, as in JavaScript. -/
def numLt (o : Option Int) (k : Int) : Bool :=
  match o with
  | some n => n < k
  | none => false

/-- `NaN`-aware `>` on coerced numbers. -/
def numGt (o : Option Int) (k : Int) : Bool :=
  match o with
  | some n => k < n
  | none => false

/-! ## Field normalizer (`normalizeFieldName`, `getNormalizedValue`) -/

/-- A loaded spreadsheet row: ordered mapping column name to cell value. -/
abbrev Row := List (String × JsValue)

/-- `name.toLowerCase().replace(/[^a-z0-9]/g, '')`. -/
def normalizeFieldName (name : String) : String :=
  ⟨(name.data.map Char.toLower).filter (fun c => c.isLower || c.isDigit)⟩

/-- `getNormalizedValue(row, fieldVariations)`: first candidate (in order)
whose normalized name matches a normalized key of the row; `undefined`
otherwise. -/
def getNormalizedValue (row : Row) : List String → JsValue
  | [] => .undef
  | f :: rest =>
    match row.find? (fun kv => normalizeFieldName kv.1 == normalizeFieldName f) with
    | some kv => kv.2
    | none => getNormalizedValue row rest

/-! ## Scalar parsers -/

/-- Return shape of `parseArrayString`. -/
structure ArrayParse where
  result : List String
  error : Option String
deriving DecidableEq, Repr

/-- Return shape of `parseJsonString`. -/
structure ObjectParse where
  result : Option JsValue
  error : Option String

/-- Return shape of `parsePhaseString`. -/
structure PhaseParse where
  result : List Int
  error : Option String
deriving DecidableEq, Repr

/-- `parseArrayString(value)`. -/
def parseArrayString : JsValue → ArrayParse
  | .arr l => ⟨l.map jsToString, none⟩
  | .str s =>
    if jsTrim s = "" then ⟨[], none⟩
    else
      let trimmed := jsTrim s
      if jsStartsWith trimmed "[" ∧ jsEndsWith trimmed "]" then
        match jsonParse trimmed with
        | some (.arr l) => ⟨l.map jsToString, none⟩
        | some _ => ⟨[], some "Invalid array format."⟩
        | none => ⟨[], some "Malformed JSON array."⟩
      else
        ⟨((jsSplit (jsReplaceChar trimmed '\n' ',') ',').map jsTrim).filter (fun x => x ≠ ""), none⟩
  | _ => ⟨[], none⟩

/-- `parseJsonString(value)`. -/
def parseJsonString : JsValue → ObjectParse
  | .obj fields => ⟨some (.obj fields), none⟩
  | .str s =>
    if jsTrim s = "" then ⟨none, none⟩
    else
      let trimmed := jsTrim s
      if ¬ (jsStartsWith trimmed "\x7b" ∧ jsEndsWith trimmed "\x7d") then
        ⟨none, some "Value must be a valid JSON object (e.g., \x7b\"key\":\"value\"\x7d)."⟩
      else
        match jsonParse trimmed with
        | some (.obj fields) => ⟨some (.obj fields), none⟩
        | some _ => ⟨none, some "Value is not a valid JSON object."⟩
        | none => ⟨none, some "Malformed JSON object."⟩
  | _ => ⟨none, none⟩

/-- `start..end` inclusive integer range (the `for` loop of the range case). -/
def rangeInclusive (a b : Int) : List Int :=
  (List.range (b - a + 1).toNat).map (fun i => a + (i : Int))

/-- The range-case error message of `parsePhaseString`. -/
def invalidRangeMsg : String := "Invalid range format (e.g., \"1-5\")."

/-- The accumulation phase of `parsePhaseString` on a nonempty trimmed
string: the `phases` list pushed so far together with the last `error`
assigned (the source then discards `phases` whenever `error` is set). -/
def phaseScan (trimmed : String) : List Int × Option String :=
  if jsStartsWith trimmed "[" ∧ jsEndsWith trimmed "]" then
    match jsonParse trimmed with
    | some (.arr l) =>
      (l.filterMap jsNumber,
        if l.all (fun item => (jsNumber item).isSome) then none
        else some "Contains non-numeric values.")
    | some _ => ([], some "Invalid array format.")
    | none => ([], some "Malformed JSON array.")
  else if trimmed.data.contains '-' then
    match (jsSplit trimmed '-').map jsTrim with
    | [p1, p2] =>
      (match strToNum p1, strToNum p2 with
       | some a, some b =>
         if a ≤ b then (rangeInclusive a b, none)
         else ([], some invalidRangeMsg)
       | _, _ => ([], some invalidRangeMsg))
    | _ => ([], some invalidRangeMsg)
  else
    let items := jsSplit trimmed ','
    (items.filterMap (fun item => if jsTrim item = "" then none else strToNum (jsTrim item)),
      if items.any (fun item => jsTrim item ≠ "" ∧ (strToNum (jsTrim item)).isNone) then
        some "Contains non-numeric values or invalid format."
      else none)

/-- `parsePhaseString(value)`: the final
`if (error) return { result: [], error }` discards any partial parse. -/
def parsePhaseString : JsValue → PhaseParse
  | .arr l => ⟨l.filterMap jsNumber, none⟩
  | .str s =>
    if jsTrim s = "" then ⟨[], none⟩
    else
      match phaseScan (jsTrim s) with
      | (_, some e) => ⟨[], some e⟩
      | (phases, none) => ⟨phases, none⟩
  | _ => ⟨[], none⟩

/-! ## Data model: entities, sheets, diagnostics, rules -/

/-- `EntityType` from `src/lib/utils.ts`. -/
inductive EntityType where
  | clients
  | workers
  | tasks
deriving DecidableEq, Repr

/-- The string an `EntityType` denotes. -/
def entityName : EntityType → String
  | .clients => "clients"
  | .workers => "workers"
  | .tasks => "tasks"

/-- `ValidationLevel`. -/
inductive Level where
  | error
  | warning
  | info
deriving DecidableEq, Repr

/-- The `ValidationError` diagnostic record. -/
structure Diagnostic where
  id : String
  entity : EntityType
  rowIndex : Int
  field : String
  message : String
  level : Level
deriving DecidableEq, Repr

/-- The deterministic diagnostic id
`` `${entity}-${rowIndex}-${field}-${message}` `` used by both `createError`
helpers. -/
def mkErrorId (entity : EntityType) (rowIndex : Int) (field message : String) : String :=
  entityName entity ++ "-" ++ toString rowIndex ++ "-" ++ field ++ "-" ++ message

/-- Both `createError` helpers of the source build exactly this record. -/
def createError (entity : EntityType) (rowIndex : Int) (field message : String)
    (level : Level) : Diagnostic :=
  ⟨mkErrorId entity rowIndex field message, entity, rowIndex, field, message, level⟩

/-- `SheetData`. -/
structure SheetData where
  name : String
  headers : List String
  jsonData : List Row

/-- The `sheets` record: one `SheetData` per entity. -/
structure Sheets where
  clients : SheetData
  workers : SheetData
  tasks : SheetData

/-- `sheets[entity]`. -/
def Sheets.get (s : Sheets) : EntityType → SheetData
  | .clients => s.clients
  | .workers => s.workers
  | .tasks => s.tasks

/-- `Object.keys(currentSheets)` iteration order. -/
def entityList : List EntityType := [.clients, .workers, .tasks]

/-- `Rule['type']`. -/
inductive RuleType where
  | coRun
  | slotRestriction
  | loadLimit
  | phaseWindow
  | patternMatch
  | precedenceOverride
deriving DecidableEq, Repr

/-- A user-authored `Rule` (optional fields model the `?` members). -/
structure Rule where
  id : String
  type : RuleType
  tasks : Option (List String)
  clientGroup : Option String
  workerGroup : Option String
  minCommonSlots : Option Int
  maxSlotsPerPhase : Option Int
  allowedPhases : Option (List Int)
  pattern : Option String
  priority : Option Int
  active : Bool

/-- `REQUIRED_COLUMNS`. -/
def REQUIRED_COLUMNS : EntityType → List String
  | .clients => ["id", "priorityLevel"]
  | .workers => ["id", "availableSlots", "maxLoadPerPhase"]
  | .tasks => ["id", "duration", "requiredSkills"]

/-! ## Row validator (`validateRow`) -/

/-- `normalizeFieldName(key).includes('json')`. -/
def containsJson (s : String) : Bool :=
  hasSubstrChars "json".data s.data

/-- The per-column JSON check of `validateRow`: any column whose normalized
name contains `json` must parse as a JSON object. -/
def jsonColumnErrors (entity : EntityType) (row : Row) (rowIndex : Int) : List Diagnostic :=
  row.filterMap fun kv =>
    if containsJson (normalizeFieldName kv.1) then
      (parseJsonString kv.2).error.map fun e => createError entity rowIndex kv.1 e .error
    else none

/-- The `priorityLevel` bound check shared by the clients and tasks
branches (`Number(priority) < 1 || Number(priority) > 5` — both false for
`NaN`). -/
def priorityCheck (entity : EntityType) (field : String) (variations : List String)
    (row : Row) (rowIndex : Int) : List Diagnostic :=
  let priority := getNormalizedValue row variations
  if ¬ priority.isUndef = true ∧
      (numLt (jsNumber priority) 1 = true ∨ numGt (jsNumber priority) 5 = true) then
    [createError entity rowIndex field "Priority must be 1-5." .error]
  else []

/-- The clients `requestedTasks` referential check. -/
def clientTasksCheck (row : Row) (rowIndex : Int) (allSheets : Sheets) : List Diagnostic :=
  let parsed := parseArrayString (getNormalizedValue row ["requestedTasks", "requestedTaskIDs"])
  match parsed.error with
  | some e => [createError .clients rowIndex "requestedTasks" e .error]
  | none =>
    parsed.result.filterMap fun taskId =>
      if allSheets.tasks.jsonData.any
          (fun t => jsToString (getNormalizedValue t ["id", "taskId"]) == taskId) then none
      else some (createError .clients rowIndex "requestedTasks"
        ("Task ID \"" ++ taskId ++ "\" not found.") .error)

/-- The `clients` branch of `validateRow`. -/
def validateClientRow (row : Row) (rowIndex : Int) (allSheets : Sheets) : List Diagnostic :=
  priorityCheck .clients "priorityLevel" ["priorityLevel", "priority"] row rowIndex ++
    clientTasksCheck row rowIndex allSheets

/-- The workers `availableSlots` checks. -/
def workerSlotsCheck (row : Row) (rowIndex : Int) : List Diagnostic :=
  let parsed := parseArrayString (getNormalizedValue row ["availableSlots", "slots"])
  match parsed.error with
  | some e => [createError .workers rowIndex "availableSlots" e .error]
  | none =>
    if parsed.result.any (fun s => (strToNum s).isNone) then
      [createError .workers rowIndex "availableSlots" "Must be a list of numbers." .error]
    else []

/-- The workers `maxLoadPerPhase` check (compares against the parsed slot
count, which is `0` when the slot parse failed). -/
def workerMaxLoadCheck (row : Row) (rowIndex : Int) : List Diagnostic :=
  let slotCount := (parseArrayString (getNormalizedValue row ["availableSlots", "slots"])).result.length
  let maxLoad := getNormalizedValue row ["maxLoad", "maxLoadPerPhase"]
  if ¬ maxLoad.isUndef = true ∧ numGt (jsNumber maxLoad) slotCount = true then
    [createError .workers rowIndex "maxLoadPerPhase"
      ("MaxLoad (" ++ jsToString maxLoad ++ ") > available slots ("
        ++ toString slotCount ++ ").") .error]
  else []

/-- The workers `skills` parse check. -/
def workerSkillsCheck (row : Row) (rowIndex : Int) : List Diagnostic :=
  match (parseArrayString (getNormalizedValue row ["skills", "workerSkills"])).error with
  | some e => [createError .workers rowIndex "skills" e .error]
  | none => []

/-- The `workers` branch of `validateRow`. -/
def validateWorkerRow (row : Row) (rowIndex : Int) : List Diagnostic :=
  workerSlotsCheck row rowIndex ++ workerMaxLoadCheck row rowIndex ++
    workerSkillsCheck row rowIndex

/-- The count of qualified, available workers used by the `maxConcurrent`
check: workers whose skill list contains every required skill and whose
parsed `availableSlots` list is nonempty. -/
def qualifiedAvailableWorkers (allSheets : Sheets) (requiredSkills : List String) : Nat :=
  (allSheets.workers.jsonData.filter fun w =>
    let workerSkills := (parseArrayString (getNormalizedValue w ["skills", "workerSkills"])).result
    let availableSlots := (parseArrayString (getNormalizedValue w ["availableSlots", "slots"])).result
    requiredSkills.all (fun s => workerSkills.contains s) && availableSlots.length > 0).length

/-- The tasks `duration` lower-bound check (`Number(duration) < 1` is
false for `NaN`). -/
def taskDurationCheck (row : Row) (rowIndex : Int) : List Diagnostic :=
  let duration := getNormalizedValue row ["duration", "taskDuration"]
  if ¬ duration.isUndef = true ∧ numLt (jsNumber duration) 1 = true then
    [createError .tasks rowIndex "duration" "Duration must be >= 1." .error]
  else []

/-- The tasks `preferredPhases` checks. -/
def taskPhasesCheck (row : Row) (rowIndex : Int) : List Diagnostic :=
  let phases := parsePhaseString (getNormalizedValue row ["preferredPhases", "phases"])
  match phases.error with
  | some e => [createError .tasks rowIndex "preferredPhases" e .error]
  | none =>
    if phases.result.any (fun p => p < 1) then
      [createError .tasks rowIndex "preferredPhases" "Phases must be positive integers." .error]
    else []

/-- The tasks `maxConcurrent` check (guarded by JS truthiness of the raw
cell). -/
def taskMaxConcurrentCheck (row : Row) (rowIndex : Int) (allSheets : Sheets) : List Diagnostic :=
  let maxConcurrent := getNormalizedValue row ["maxConcurrent", "maxConcurrentTasks"]
  if jsTruthy maxConcurrent = true then
    let skills := parseArrayString (getNormalizedValue row ["skills", "requiredSkills"])
    match skills.error with
    | some e => [createError .tasks rowIndex "skills" e .error]
    | none =>
      let count := qualifiedAvailableWorkers allSheets skills.result
      if numGt (jsNumber maxConcurrent) count = true then
        [createError .tasks rowIndex "maxConcurrent"
          ("MaxConcurrent (" ++ jsToString maxConcurrent
            ++ ") > qualified, available workers (" ++ toString count ++ ").") .error]
      else []
  else []

/-- The `tasks` branch of `validateRow`. -/
def validateTaskRow (row : Row) (rowIndex : Int) (allSheets : Sheets) : List Diagnostic :=
  priorityCheck .tasks "priority" ["priority", "priorityLevel"] row rowIndex ++
    taskDurationCheck row rowIndex ++ taskPhasesCheck row rowIndex ++
    taskMaxConcurrentCheck row rowIndex allSheets

/-- `validateRow(entity, row, rowIndex, allSheets)`. -/
def validateRow (entity : EntityType) (row : Row) (rowIndex : Int)
    (allSheets : Sheets) : List Diagnostic :=
  jsonColumnErrors entity row rowIndex ++
    match entity with
    | .clients => validateClientRow row rowIndex allSheets
    | .workers => validateWorkerRow row rowIndex
    | .tasks => validateTaskRow row rowIndex allSheets

/-! ## Dataset validator (`validateAllData`) -/

/-- JS-object/`Map` style insert-or-update on an insertion-ordered
association list: an existing key keeps its position, a new key is
appended. -/
def upsert {κ α : Type} [BEq κ] (l : List (κ × α)) (k : κ) (f : Option α → α) :
    List (κ × α) :=
  match l with
  | [] => [(k, f none)]
  | (k', v) :: rest => if k' == k then (k', f (some v)) :: rest else (k', v) :: upsert rest k f

/-- Step 1: required-column schema check. -/
def schemaErrors (sheets : Sheets) : List Diagnostic :=
  entityList.flatMap fun entity =>
    let sd := sheets.get entity
    if sd.jsonData.length > 0 then
      let headers := sd.headers.map normalizeFieldName
      let missing := (REQUIRED_COLUMNS entity).filter
        (fun col => ¬ headers.contains (normalizeFieldName col))
      if missing.length > 0 then
        [createError entity (-1) "File"
          ("Missing required columns: " ++ jsJoin ", " missing) .error]
      else []
    else []

/-- `entity.slice(0, -1)`: the singular entity name. -/
def entitySingular (e : EntityType) : String :=
  ⟨(entityName e).data.dropLast⟩

/-- The id-field aliases tried by the duplicate-id check. -/
def idVariations (e : EntityType) : List String :=
  ["id", entitySingular e ++ "Id", entitySingular e ++ "ID", entitySingular e ++ "_id"]

/-- The (raw) id value of a row. -/
def rowIdValue (e : EntityType) (row : Row) : JsValue :=
  getNormalizedValue row (idVariations e)

/-- The guard of the duplicate-id check:
`id !== undefined && id !== null && String(id).trim() !== ''` fails. -/
def blankId (e : EntityType) (row : Row) : Bool :=
  let idv := rowIdValue e row
  idv.isUndef || idv.isNull || jsTrim (jsToString idv) == ""

/-- Step 2 body: the per-entity duplicate-id scan. `ids` is the
first-occurrence map accumulated so far (keyed by `String(id)`). -/
def dupIdScan (e : EntityType) : List Row → Nat → List (String × Nat) → List Diagnostic
  | [], _, _ => []
  | row :: rest, index, ids =>
    if blankId e row then dupIdScan e rest (index + 1) ids
    else
      match List.lookup (jsToString (rowIdValue e row)) ids with
      | some firstIdx =>
          createError e (index : Int) "id"
              ("Duplicate ID \"" ++ jsToString (rowIdValue e row) ++ "\" also found at row "
                ++ toString (firstIdx + 1)) .error
            :: dupIdScan e rest (index + 1) ids
      | none => dupIdScan e rest (index + 1) ((jsToString (rowIdValue e row), index) :: ids)

/-- Step 2: duplicate-id check, scoped per entity. -/
def dupIdErrors (sheets : Sheets) : List Diagnostic :=
  entityList.flatMap fun e => dupIdScan e (sheets.get e).jsonData 0 []

/-- Step 3: run `validateRow` over every row of every entity. -/
def rowErrors (sheets : Sheets) : List Diagnostic :=
  entityList.flatMap fun entity =>
    ((sheets.get entity).jsonData.enum).flatMap fun p =>
      validateRow entity p.2 (p.1 : Int) sheets

/-- Step 4a: phase to worker-slot-count multiset from every worker's parsed
`availableSlots`. -/
def phaseSlots (sheets : Sheets) : List (Int × Int) :=
  sheets.workers.jsonData.foldl
    (fun acc worker =>
      let slots := (parseArrayString (getNormalizedValue worker ["availableSlots", "slots"])).result
      slots.foldl
        (fun acc2 slot =>
          match strToNum slot with
          | some slotNum => upsert acc2 slotNum (fun old => old.getD 0 + 1)
          | none => acc2)
        acc)
    []

/-- One task's contribution to the phase-requirement map: tasks without a
`phase`/`taskPhase` field (for example tasks specifying only
`preferredPhases`) contribute nothing; otherwise `String(phase)` is the
property key and `Number(duration || 1)` is added (`none` models a `NaN`
sum; the stored `x || 0` turns a stored `NaN` back into `0`). -/
def phaseReqStep (acc : List (String × Option Int)) (task : Row) :
    List (String × Option Int) :=
  let durationRaw := getNormalizedValue task ["duration", "taskDuration"]
  let duration := if jsTruthy durationRaw then durationRaw else .num 1
  let phase := getNormalizedValue task ["phase", "taskPhase"]
  if phase.isUndef then acc
  else
    upsert acc (jsToString phase) (fun old =>
      let base : Int :=
        match old with
        | some (some v) => v
        | _ => 0
      (jsNumber duration).map (fun d => base + d))

/-- Step 4b: phase to required-duration-sum over a task list. -/
def phaseRequirementsOf (tasksRows : List Row) : List (String × Option Int) :=
  tasksRows.foldl phaseReqStep []

/-- Step 4b applied to the dataset. -/
def phaseRequirements (sheets : Sheets) : List (String × Option Int) :=
  phaseRequirementsOf sheets.tasks.jsonData

/-- `phaseSlots[Number(phase)] || 0`. -/
def phaseAvailable (sheets : Sheets) (phaseKey : String) : Int :=
  ((strToNum phaseKey).bind (fun n => List.lookup n (phaseSlots sheets))).getD 0

/-- The saturation diagnostic for one overloaded phase. -/
def overloadDiag (phaseKey : String) (required available : Int) : Diagnostic :=
  createError .tasks (-1) "Phase Saturation"
    ("Phase " ++ phaseKey ++ " overloaded: requires " ++ toString required
      ++ " slots, but only " ++ toString available ++ " are available.") .error

/-- Step 4c: the saturation errors (`required > available` is false when the
required sum is `NaN`). -/
def phaseSaturationErrors (sheets : Sheets) : List Diagnostic :=
  (phaseRequirements sheets).filterMap fun pr =>
    match pr.2 with
    | some (required : Int) =>
      if phaseAvailable sheets pr.1 < required then
        some (overloadDiag pr.1 required (phaseAvailable sheets pr.1))
      else none
    | none => none

/-- JS `Set` built from a list: deduplicate keeping first occurrences. -/
def dedupKeepFirst (l : List String) : List String :=
  l.foldl (fun acc s => if acc.contains s then acc else acc ++ [s]) []

/-- Step 5: skill-coverage warnings. -/
def skillCoverageErrors (sheets : Sheets) : List Diagnostic :=
  let allRequiredSkills := dedupKeepFirst (sheets.tasks.jsonData.flatMap fun t =>
    (parseArrayString (getNormalizedValue t ["skills", "requiredSkills"])).result)
  let allWorkerSkills := dedupKeepFirst (sheets.workers.jsonData.flatMap fun w =>
    (parseArrayString (getNormalizedValue w ["skills", "workerSkills"])).result)
  allRequiredSkills.filterMap fun skill =>
    if allWorkerSkills.contains skill then none
    else some (createError .tasks (-1) "Skill Coverage"
      ("Skill \"" ++ skill ++ "\" is required by tasks but not provided by any worker.") .warning)

/-! ## Rule engine: co-run cycle detection -/

/-- One step of the co-run graph construction: look the rule task up in the
tasks dataset and store its parsed dependencies restricted to the rule's
own task set. -/
def coRunGraphStep (sheets : Sheets) (ruleTasks : List String)
    (graph : List (String × List String)) (taskId : String) :
    List (String × List String) :=
  match sheets.tasks.jsonData.find?
      (fun t => jsToString (getNormalizedValue t ["id", "taskId"]) == taskId) with
  | some task =>
    let deps := (parseArrayString (getNormalizedValue task ["dependencies", "dependsOn"])).result
    upsert graph taskId (fun _ => deps.filter (fun d => ruleTasks.contains d))
  | none => graph

/-- The dependency graph of a co-run rule: node per rule task id found in
the tasks dataset, edges to its parsed dependencies restricted to the
rule's own task set. -/
def buildCoRunGraph (sheets : Sheets) (ruleTasks : List String) :
    List (String × List String) :=
  ruleTasks.foldl (coRunGraphStep sheets ruleTasks) []

/-- `graph.get(taskId) || []`. -/
def graphDeps (graph : List (String × List String)) (u : String) : List String :=
  (List.lookup u graph).getD []

mutual

/-- `detectCycle(taskId)`: white/gray/black DFS.  `stack` is the gray
recursion stack, `visited` accumulates across calls.  The fuel (one unit
per step, an artifact of the embedding) is chosen large enough never to
run out, so the `fuel = 0` branches are dead code. -/
def dfsVisit (graph : List (String × List String)) (fuel : Nat)
    (stack visited : List String) (u : String) : Bool × List String :=
  match fuel with
  | 0 => (false, visited)
  | fuel' + 1 => dfsDeps graph fuel' (u :: stack) (u :: visited) (graphDeps graph u)

/-- The `for (const depId of dependencies)` loop of `detectCycle`. -/
def dfsDeps (graph : List (String × List String)) (fuel : Nat)
    (stack visited : List String) (deps : List String) : Bool × List String :=
  match fuel with
  | 0 => (false, visited)
  | fuel' + 1 =>
    match deps with
    | [] => (false, visited)
    | d :: ds =>
      if visited.contains d then
        if stack.contains d then (true, visited)
        else dfsDeps graph fuel' stack visited ds
      else
        match dfsVisit graph fuel' stack visited d with
        | (true, v2) => (true, v2)
        | (false, v2) => dfsDeps graph fuel' stack v2 ds

end

/-- The `for (const taskId of rule.tasks!)` driver loop: first root whose
DFS finds a cycle wins (the source then emits one error and breaks). -/
def dfsRoots (graph : List (String × List String)) (fuel : Nat) :
    List String → List String → Bool
  | [], _ => false
  | t :: rest, visited =>
    if visited.contains t then dfsRoots graph fuel rest visited
    else
      match dfsVisit graph fuel [] visited t with
      | (true, _) => true
      | (false, v2) => dfsRoots graph fuel rest v2

/-- The potential of the unvisited nodes of `N`: an upper bound on the
number of DFS steps still possible. -/
def potential (graph : List (String × List String)) (v : List String) :
    List String → Nat
  | [] => 0
  | x :: N =>
    (if v.contains x then 0 else 2 + (graphDeps graph x).length) + potential graph v N

/-- The node universe relevant to a co-run check: the rule's tasks and
every stored dependency. -/
def nodeUniverse (graph : List (String × List String)) (ts : List String) :
    List String :=
  ts ++ graph.flatMap (fun kv => kv.2)

/-- A step budget the DFS can never exhaust. -/
def dfsFuel (graph : List (String × List String)) (ts : List String) : Nat :=
  potential graph [] (nodeUniverse graph ts)

/-- Is this rule an active `coRun` rule with at least two tasks? -/
def isActiveCoRun (r : Rule) : Bool :=
  r.type == .coRun && r.active &&
    (match r.tasks with
     | some ts => ts.length > 1
     | none => false)

/-- Step 6a: co-run dependency-cycle errors. -/
def coRunErrors (sheets : Sheets) (rules : List Rule) : List Diagnostic :=
  (rules.filter isActiveCoRun).flatMap fun rule =>
    let ts := rule.tasks.getD []
    let graph := buildCoRunGraph sheets ts
    if dfsRoots graph (dfsFuel graph ts) ts [] then
      [createError .tasks (-1) "Rules"
        ("Circular dependency in co-run rule: " ++ jsJoin ", " ts) .error]
    else []

/-- Step 6b: slot-restriction referential warnings.  The `if (rule.clientGroup)`
truthiness guard also skips an empty-string group. -/
def slotRestrictionErrors (sheets : Sheets) (rules : List Rule) : List Diagnostic :=
  (rules.filter (fun r => r.type == .slotRestriction && r.active)).flatMap fun rule =>
    let clientErrs :=
      match rule.clientGroup with
      | some cg =>
        if cg ≠ "" then
          if sheets.clients.jsonData.any
              (fun c => jsToString (getNormalizedValue c ["groupTag", "clientGroup"]) == cg) then []
          else [createError .clients (-1) "Rules"
            ("Slot Restriction rule references non-existent client group: " ++ cg ++ ".") .warning]
        else []
      | none => []
    let workerErrs :=
      match rule.workerGroup with
      | some wg =>
        if wg ≠ "" then
          if sheets.workers.jsonData.any
              (fun w => jsToString (getNormalizedValue w ["workerGroup", "groupTag"]) == wg) then []
          else [createError .workers (-1) "Rules"
            ("Slot Restriction rule references non-existent worker group: " ++ wg ++ ".") .warning]
        else []
      | none => []
    clientErrs ++ workerErrs

/-- `validateAllData(currentSheets)` with the ambient `rules` made an
explicit argument: the full diagnostic list, in source emission order
(progress reporting is pure UI and not modelled). -/
def validateAllData (sheets : Sheets) (rules : List Rule) : List Diagnostic :=
  schemaErrors sheets ++ dupIdErrors sheets ++ rowErrors sheets ++
    phaseSaturationErrors sheets ++ skillCoverageErrors sheets ++
    coRunErrors sheets rules ++ slotRestrictionErrors sheets rules

/-! ## Mutation interface (`handleCellEdit`) -/

/-- Update the element at position `i` (no-op when out of range, the only
case the UI can produce is in range). -/
def updateAt {α : Type} : List α → Nat → (α → α) → List α
  | [], _, _ => []
  | x :: rest, 0, f => f x :: rest
  | x :: rest, i + 1, f => x :: updateAt rest i f

/-- The cell-edit write: resolve `header` against the row's normalized keys,
fall back to the literal key, then assign. -/
def setRowField (row : Row) (header : String) (value : JsValue) : Row :=
  let keyToUpdate :=
    match row.find? (fun kv => normalizeFieldName kv.1 == normalizeFieldName header) with
    | some kv => kv.1
    | none => header
  upsert row keyToUpdate (fun _ => value)

/-- Replace one entity's sheet. -/
def Sheets.setEntity (s : Sheets) : EntityType → SheetData → Sheets
  | .clients, sd => { s with clients := sd }
  | .workers, sd => { s with workers := sd }
  | .tasks, sd => { s with tasks := sd }

/-- The data mutation performed by `handleCellEdit(entity, rowIndex, header,
value)` (the subsequent full re-validation is `validateAllData`). -/
def setField (sheets : Sheets) (entity : EntityType) (rowIndex : Nat)
    (header : String) (value : JsValue) : Sheets :=
  let sd := sheets.get entity
  sheets.setEntity entity
    { sd with jsonData := updateAt sd.jsonData rowIndex (fun row => setRowField row header value) }

/-! ## Sample data used by concrete instances and witnesses -/

/-- An empty sheet. -/
def emptySheet : SheetData := ⟨"X", [], []⟩

/-- All three datasets empty. -/
def noSheets : Sheets := ⟨emptySheet, emptySheet, emptySheet⟩

/-! ## Helper lemmas -/

theorem ne_empty_of_data_contains {s : String} {c : Char}
    (h : s.data.contains c = true) : s ≠ "" := by
  intro he
  subst he
  simp [List.contains] at h

theorem parsePhaseString_str_eq (s : String) (h : jsTrim s ≠ "") :
    parsePhaseString (.str s) =
      match phaseScan (jsTrim s) with
      | (_, some e) => ⟨[], some e⟩
      | (phases, none) => ⟨phases, none⟩ := by
  simp only [parsePhaseString]
  rw [if_neg h]

/-! ## Claim theorems -/

/-- **C8**: every input value gives each scalar parser a `(value, error)`
pair (totality of the embedding); the object parser returns `null` with no
error on `undefined` and on empty/whitespace strings; any other non-empty
string that does not have the `{...}` surface form fails with the
"must be a valid JSON object" error; and whenever the object parser reports
no error on a non-blank string, it produced a JSON object. -/
theorem claim_C8 :
    (∀ v, ∃ r e, parseArrayString v = ⟨r, e⟩)
    ∧ (∀ v, ∃ r e, parseJsonString v = ⟨r, e⟩)
    ∧ (∀ v, ∃ r e, parsePhaseString v = ⟨r, e⟩)
    ∧ parseJsonString .undef = ⟨none, none⟩
    ∧ parseJsonString (.str "") = ⟨none, none⟩
    ∧ parseJsonString (.str "   ") = ⟨none, none⟩
    ∧ (∀ s, jsTrim s ≠ "" →
        ¬ (jsStartsWith (jsTrim s) "\x7b" = true ∧ jsEndsWith (jsTrim s) "\x7d" = true) →
        parseJsonString (.str s) =
          ⟨none, some "Value must be a valid JSON object (e.g., \x7b\"key\":\"value\"\x7d)."⟩)
    ∧ (∀ s, jsTrim s ≠ "" → (parseJsonString (.str s)).error = none →
        ∃ fields, (parseJsonString (.str s)).result = some (.obj fields)) := by
  refine ⟨fun v => ⟨_, _, rfl⟩, fun v => ⟨_, _, rfl⟩, fun v => ⟨_, _, rfl⟩,
    rfl, rfl, rfl, ?_, ?_⟩
  · intro s h1 h2
    simp only [parseJsonString]
    rw [if_neg h1, if_pos h2]
  · intro s h1 h2
    simp only [parseJsonString] at h2 ⊢
    rw [if_neg h1] at h2 ⊢
    by_cases hb : jsStartsWith (jsTrim s) "\x7b" = true ∧ jsEndsWith (jsTrim s) "\x7d" = true
    · rw [if_neg (not_not_intro hb)] at h2 ⊢
      rcases hj : jsonParse (jsTrim s) with _ | v
      · rw [hj] at h2
        exact Option.noConfusion h2
      · rcases v with _ | _ | b | n | t | l | fields <;> simp_all
    · rw [if_pos hb] at h2
      simp at h2

/-- Closed witness for the universally quantified parts of `claim_C8`. -/
theorem claim_C8_witness :
    parseJsonString (.str "notjson") =
      ⟨none, some "Value must be a valid JSON object (e.g., \x7b\"key\":\"value\"\x7d)."⟩
    ∧ (∃ fields, (parseJsonString (.str " \x7b\"a\": 1\x7d ")).result = some (.obj fields)) := by
  constructor
  · exact claim_C8.2.2.2.2.2.2.1 "notjson" (by decide) (by decide)
  · exact claim_C8.2.2.2.2.2.2.2 " \x7b\"a\": 1\x7d " (by decide) (by decide)

/-- **C9** (implicit): on an input that is already an array, the phase-list
parser converts each element with `Number` and silently drops the
non-numeric ones, reporting no error — unlike the string forms, where a
non-numeric token yields an error and an empty result. -/
theorem claim_C9 :
    (∀ l, parsePhaseString (.arr l) = ⟨l.filterMap jsNumber, none⟩)
    ∧ parsePhaseString (.arr [.num 2, .str "a", .num 4]) = ⟨[2, 4], none⟩
    ∧ parsePhaseString (.str "2,a,4") =
        ⟨[], some "Contains non-numeric values or invalid format."⟩ := by
  exact ⟨fun l => rfl, rfl, rfl⟩

/-- Closed witness for the universally quantified part of `claim_C9`. -/
theorem claim_C9_witness :
    parsePhaseString (.arr [.str "3", .obj [], .num 1]) = ⟨[3, 1], none⟩ :=
  claim_C9.1 [.str "3", .obj [], .num 1]

/-- **C2**: the phase-list parser maps `"1-3"` to `[1,2,3]` with no error;
a `"start-end"` range with start > end, or a range that does not split into
exactly two parts, or a range with a non-numeric part, yields the
"Invalid range format" error; a comma list with a non-numeric token yields
an error together with the empty list; an error always comes with the empty
list (no partial results); and JSON-array input `"[1,2,3]"` parses to
`[1,2,3]`. -/
theorem claim_C2 :
    (parsePhaseString (.str "1-3") = ⟨[1, 2, 3], none⟩)
    ∧ (parsePhaseString (.str "3-1") = ⟨[], some invalidRangeMsg⟩)
    ∧ (∀ s p1 p2 a b,
        ¬ (jsStartsWith (jsTrim s) "[" = true ∧ jsEndsWith (jsTrim s) "]" = true) →
        (jsTrim s).data.contains '-' = true →
        (jsSplit (jsTrim s) '-').map jsTrim = [p1, p2] →
        strToNum p1 = some a → strToNum p2 = some b → b < a →
        parsePhaseString (.str s) = ⟨[], some invalidRangeMsg⟩)
    ∧ (∀ s, ¬ (jsStartsWith (jsTrim s) "[" = true ∧ jsEndsWith (jsTrim s) "]" = true) →
        (jsTrim s).data.contains '-' = true →
        ((jsSplit (jsTrim s) '-').map jsTrim).length ≠ 2 →
        parsePhaseString (.str s) = ⟨[], some invalidRangeMsg⟩)
    ∧ (parsePhaseString (.str "1-x") = ⟨[], some invalidRangeMsg⟩)
    ∧ (parsePhaseString (.str "2,a,4") =
        ⟨[], some "Contains non-numeric values or invalid format."⟩)
    ∧ (∀ v, (parsePhaseString v).error.isSome → (parsePhaseString v).result = [])
    ∧ (parsePhaseString (.str "[1,2,3]") = ⟨[1, 2, 3], none⟩) := by
  refine ⟨rfl, rfl, ?_, ?_, rfl, rfl, ?_, rfl⟩
  · intro s p1 p2 a b hbr hdash hsplit hp1 hp2 hba
    have htr : jsTrim s ≠ "" := ne_empty_of_data_contains hdash
    rw [parsePhaseString_str_eq s htr]
    have hscan : phaseScan (jsTrim s) = ([], some invalidRangeMsg) := by
      simp only [phaseScan, if_neg hbr, if_pos hdash, hsplit, hp1, hp2,
        if_neg (not_le.mpr hba)]
    rw [hscan]
  · intro s hbr hdash hlen
    have htr : jsTrim s ≠ "" := ne_empty_of_data_contains hdash
    rw [parsePhaseString_str_eq s htr]
    have hscan : phaseScan (jsTrim s) = ([], some invalidRangeMsg) := by
      simp only [phaseScan]
      rw [if_neg hbr, if_pos hdash]
      rcases hs : (jsSplit (jsTrim s) '-').map jsTrim with _ | ⟨p1, _ | ⟨p2, rest⟩⟩
      · rfl
      · rfl
      · rcases rest with _ | _
        · rw [hs] at hlen
          simp at hlen
        · rfl
    rw [hscan]
  · intro v h
    rcases v with _ | _ | b | n | s | l | f
    · simp [parsePhaseString] at h
    · simp [parsePhaseString] at h
    · simp [parsePhaseString] at h
    · simp [parsePhaseString] at h
    · by_cases htr : jsTrim s = ""
      · simp [parsePhaseString, htr] at h
      · rw [parsePhaseString_str_eq s htr] at h ⊢
        rcases hps : phaseScan (jsTrim s) with ⟨ph, _ | e⟩
        · rw [hps] at h
          simp at h
        · rfl
    · simp [parsePhaseString] at h
    · simp [parsePhaseString] at h

/-- Closed witness for the universally quantified parts of `claim_C2`. -/
theorem claim_C2_witness :
    parsePhaseString (.str "5-2") = ⟨[], some invalidRangeMsg⟩
    ∧ parsePhaseString (.str "1-2-3") = ⟨[], some invalidRangeMsg⟩
    ∧ (parsePhaseString (.str "2,a,4")).result = [] := by
  refine ⟨?_, ?_, ?_⟩
  · exact claim_C2.2.2.1 "5-2" "5" "2" 5 2 (by decide) (by decide) (by decide)
      (by decide) (by decide) (by decide)
  · exact claim_C2.2.2.2.1 "1-2-3" (by decide) (by decide) (by decide)
  · exact claim_C2.2.2.2.2.2.2.1 (.str "2,a,4") (by decide)

/-- The diagnostics a clients row carries for the `priorityLevel` field. -/
def clientPriorityDiags (row : Row) (i : Int) (sheets : Sheets) : List Diagnostic :=
  (validateRow .clients row i sheets).filter (fun d => d.field == "priorityLevel")

/-- The diagnostics a tasks row carries for the `duration` field. -/
def taskDurationDiags (row : Row) (i : Int) (sheets : Sheets) : List Diagnostic :=
  (validateRow .tasks row i sheets).filter (fun d => d.field == "duration")

/-- The diagnostics a tasks row carries for the `priority` field. -/
def taskPriorityDiags (row : Row) (i : Int) (sheets : Sheets) : List Diagnostic :=
  (validateRow .tasks row i sheets).filter (fun d => d.field == "priority")

theorem mem_jsonColumnErrors {e : EntityType} {row : Row} {i : Int} {d : Diagnostic}
    (h : d ∈ jsonColumnErrors e row i) :
    containsJson (normalizeFieldName d.field) = true := by
  simp only [jsonColumnErrors, List.mem_filterMap] at h
  rcases h with ⟨kv, hkv, hf⟩
  by_cases hc : containsJson (normalizeFieldName kv.1) = true
  · rw [if_pos hc] at hf
    rcases he : (parseJsonString kv.2).error with _ | msg <;> rw [he] at hf <;> simp at hf
    rw [← hf]
    exact hc
  · rw [if_neg hc] at hf
    exact absurd hf (by simp)

theorem createError_field (e : EntityType) (i : Int) (f m : String) (lv : Level) :
    (createError e i f m lv).field = f := rfl

theorem filter_field_eq_nil {l : List Diagnostic} {f : String}
    (h : ∀ d ∈ l, d.field ≠ f) :
    l.filter (fun d => d.field == f) = [] := by
  rw [List.filter_eq_nil_iff]
  intro d hd hb
  exact h d hd (eq_of_beq hb)

theorem jsonColumnErrors_filter {e : EntityType} {row : Row} {i : Int} {f : String}
    (hf : containsJson (normalizeFieldName f) = false) :
    (jsonColumnErrors e row i).filter (fun d => d.field == f) = [] := by
  apply filter_field_eq_nil
  intro d hd hfield
  have hj := mem_jsonColumnErrors hd
  rw [hfield, hf] at hj
  exact Bool.noConfusion hj

theorem validateRow_clients (row : Row) (i : Int) (sheets : Sheets) :
    validateRow .clients row i sheets =
      jsonColumnErrors .clients row i ++ validateClientRow row i sheets := rfl

theorem validateRow_workers (row : Row) (i : Int) (sheets : Sheets) :
    validateRow .workers row i sheets =
      jsonColumnErrors .workers row i ++ validateWorkerRow row i := rfl

theorem validateRow_tasks (row : Row) (i : Int) (sheets : Sheets) :
    validateRow .tasks row i sheets =
      jsonColumnErrors .tasks row i ++ validateTaskRow row i sheets := rfl

theorem mem_priorityCheck_field {e : EntityType} {f : String} {vars : List String}
    {row : Row} {i : Int} {d : Diagnostic}
    (h : d ∈ priorityCheck e f vars row i) : d.field = f := by
  simp only [priorityCheck] at h
  split at h
  · simp only [List.mem_singleton] at h
    rw [h]
    rfl
  · exact absurd h (by simp)

theorem mem_clientTasksCheck_field {row : Row} {i : Int} {sheets : Sheets} {d : Diagnostic}
    (h : d ∈ clientTasksCheck row i sheets) : d.field = "requestedTasks" := by
  simp only [clientTasksCheck] at h
  split at h
  · simp only [List.mem_singleton] at h
    rw [h]
    rfl
  · simp only [List.mem_filterMap] at h
    rcases h with ⟨t, ht, heq⟩
    split at heq
    · exact Option.noConfusion heq
    · rw [← Option.some_inj.mp heq]
      rfl

theorem mem_taskPhasesCheck_field {row : Row} {i : Int} {d : Diagnostic}
    (h : d ∈ taskPhasesCheck row i) : d.field = "preferredPhases" := by
  simp only [taskPhasesCheck] at h
  split at h
  · simp only [List.mem_singleton] at h
    rw [h]
    rfl
  · split at h
    · simp only [List.mem_singleton] at h
      rw [h]
      rfl
    · exact absurd h (by simp)

theorem mem_taskMaxConcurrentCheck_field {row : Row} {i : Int} {sheets : Sheets} {d : Diagnostic}
    (h : d ∈ taskMaxConcurrentCheck row i sheets) :
    d.field = "skills" ∨ d.field = "maxConcurrent" := by
  simp only [taskMaxConcurrentCheck] at h
  split at h
  · split at h
    · simp only [List.mem_singleton] at h
      rw [h]
      left
      rfl
    · split at h
      · simp only [List.mem_singleton] at h
        rw [h]
        right
        rfl
      · exact absurd h (by simp)
  · exact absurd h (by simp)

theorem clientPriorityDiags_eq (row : Row) (i : Int) (sheets : Sheets) :
    clientPriorityDiags row i sheets =
      priorityCheck .clients "priorityLevel" ["priorityLevel", "priority"] row i := by
  unfold clientPriorityDiags
  rw [validateRow_clients, List.filter_append, jsonColumnErrors_filter (by decide),
    List.nil_append]
  unfold validateClientRow
  have h1 : (clientTasksCheck row i sheets).filter (fun d => d.field == "priorityLevel") = [] :=
    filter_field_eq_nil (fun d hd => by rw [mem_clientTasksCheck_field hd]; decide)
  rw [List.filter_append, h1, List.append_nil]
  apply List.filter_eq_self.mpr
  intro d hd
  rw [mem_priorityCheck_field hd]
  rfl

theorem taskDurationDiags_eq (row : Row) (i : Int) (sheets : Sheets) :
    taskDurationDiags row i sheets = taskDurationCheck row i := by
  unfold taskDurationDiags
  rw [validateRow_tasks, List.filter_append, jsonColumnErrors_filter (by decide),
    List.nil_append]
  unfold validateTaskRow
  have h1 : (priorityCheck .tasks "priority" ["priority", "priorityLevel"] row i).filter
      (fun d => d.field == "duration") = [] :=
    filter_field_eq_nil (fun d hd => by rw [mem_priorityCheck_field hd]; decide)
  have h2 : (taskPhasesCheck row i).filter (fun d => d.field == "duration") = [] :=
    filter_field_eq_nil (fun d hd => by rw [mem_taskPhasesCheck_field hd]; decide)
  have h3 : (taskMaxConcurrentCheck row i sheets).filter (fun d => d.field == "duration") = [] :=
    filter_field_eq_nil (fun d hd => by
      rcases mem_taskMaxConcurrentCheck_field hd with h | h <;> rw [h] <;> decide)
  rw [List.filter_append, List.filter_append, List.filter_append, h1, h2, h3,
    List.nil_append, List.append_nil, List.append_nil]
  apply List.filter_eq_self.mpr
  intro d hd
  have : d.field = "duration" := by
    simp only [taskDurationCheck] at hd
    split at hd
    · simp only [List.mem_singleton] at hd
      rw [hd]
      rfl
    · exact absurd hd (by simp)
  rw [this]
  rfl

theorem mem_taskDurationCheck_field {row : Row} {i : Int} {d : Diagnostic}
    (h : d ∈ taskDurationCheck row i) : d.field = "duration" := by
  simp only [taskDurationCheck] at h
  split at h
  · simp only [List.mem_singleton] at h
    rw [h]
    rfl
  · exact absurd h (by simp)

theorem taskPriorityDiags_eq (row : Row) (i : Int) (sheets : Sheets) :
    taskPriorityDiags row i sheets =
      priorityCheck .tasks "priority" ["priority", "priorityLevel"] row i := by
  unfold taskPriorityDiags
  rw [validateRow_tasks, List.filter_append, jsonColumnErrors_filter (by decide),
    List.nil_append]
  unfold validateTaskRow
  have h1 : (taskDurationCheck row i).filter (fun d => d.field == "priority") = [] :=
    filter_field_eq_nil (fun d hd => by rw [mem_taskDurationCheck_field hd]; decide)
  have h2 : (taskPhasesCheck row i).filter (fun d => d.field == "priority") = [] :=
    filter_field_eq_nil (fun d hd => by rw [mem_taskPhasesCheck_field hd]; decide)
  have h3 : (taskMaxConcurrentCheck row i sheets).filter (fun d => d.field == "priority") = [] :=
    filter_field_eq_nil (fun d hd => by
      rcases mem_taskMaxConcurrentCheck_field hd with h | h <;> rw [h] <;> decide)
  rw [List.filter_append, List.filter_append, List.filter_append, h1, h2, h3]
  simp only [List.append_nil, List.nil_append]
  apply List.filter_eq_self.mpr
  intro d hd
  rw [mem_priorityCheck_field hd]
  rfl

/-- **C1** is falsified by the code at a non-numeric priority/duration: the
claim asserts a `"Priority must be 1-5."` (resp. duration) error diagnostic
for non-numeric text, but `Number("abc")` is `NaN` and both bound
comparisons are false for `NaN`, so `validateRow` emits no diagnostic at
all for these rows. -/
theorem claim_C1_counterexample :
    validateRow .clients [("priorityLevel", .str "abc")] 0 noSheets = []
    ∧ validateRow .tasks [("duration", .str "abc")] 0 noSheets = [] :=
  ⟨rfl, rfl⟩

/-- **C1** (amended): for every clients row, a `priorityLevel`/`priority`
whose numeric coercion is an integer `n` yields exactly the
`"Priority must be 1-5."` diagnostic when `n < 1 ∨ 5 < n` (so for 0 and 6)
and no `priorityLevel` diagnostic when `1 ≤ n ≤ 5`; the same bound check
holds of every tasks row for its `priority`/`priorityLevel` field (the
diagnostic is created under field `"priority"`).  But on either entity a
value coercing to `NaN` (non-numeric text) yields NO diagnostic for that
field, because `NaN` fails both bound comparisons.  Likewise for every
tasks row the `duration` diagnostic appears exactly when the coerced
duration is an integer `< 1`, and non-numeric text yields none. -/
theorem claim_C1 :
    (∀ (row : Row) (i : Int) (sheets : Sheets) (n : Int),
        jsNumber (getNormalizedValue row ["priorityLevel", "priority"]) = some n →
        ¬ (getNormalizedValue row ["priorityLevel", "priority"]).isUndef = true →
        ((n < 1 ∨ 5 < n) →
          clientPriorityDiags row i sheets =
            [createError .clients i "priorityLevel" "Priority must be 1-5." .error])
        ∧ (1 ≤ n → n ≤ 5 → clientPriorityDiags row i sheets = []))
    ∧ (∀ (row : Row) (i : Int) (sheets : Sheets),
        jsNumber (getNormalizedValue row ["priorityLevel", "priority"]) = none →
        clientPriorityDiags row i sheets = [])
    ∧ (∀ (row : Row) (i : Int) (sheets : Sheets) (n : Int),
        jsNumber (getNormalizedValue row ["priority", "priorityLevel"]) = some n →
        ¬ (getNormalizedValue row ["priority", "priorityLevel"]).isUndef = true →
        ((n < 1 ∨ 5 < n) →
          taskPriorityDiags row i sheets =
            [createError .tasks i "priority" "Priority must be 1-5." .error])
        ∧ (1 ≤ n → n ≤ 5 → taskPriorityDiags row i sheets = []))
    ∧ (∀ (row : Row) (i : Int) (sheets : Sheets),
        jsNumber (getNormalizedValue row ["priority", "priorityLevel"]) = none →
        taskPriorityDiags row i sheets = [])
    ∧ (∀ (row : Row) (i : Int) (sheets : Sheets) (n : Int),
        jsNumber (getNormalizedValue row ["duration", "taskDuration"]) = some n →
        ¬ (getNormalizedValue row ["duration", "taskDuration"]).isUndef = true →
        (n < 1 →
          taskDurationDiags row i sheets =
            [createError .tasks i "duration" "Duration must be >= 1." .error])
        ∧ (1 ≤ n → taskDurationDiags row i sheets = []))
    ∧ (∀ (row : Row) (i : Int) (sheets : Sheets),
        jsNumber (getNormalizedValue row ["duration", "taskDuration"]) = none →
        taskDurationDiags row i sheets = []) := by
  refine ⟨?_, ?_, ?_, ?_, ?_, ?_⟩
  · intro row i sheets n hn hu
    rw [clientPriorityDiags_eq]
    simp only [priorityCheck]
    constructor
    · intro hrange
      rw [if_pos]
      exact ⟨hu, by rcases hrange with h | h <;> simp [numLt, numGt, hn, h]⟩
    · intro h1 h5
      rw [if_neg]
      rintro ⟨-, hcmp | hcmp⟩ <;> rw [hn] at hcmp <;> simp [numLt, numGt] at hcmp <;> omega
  · intro row i sheets hn
    rw [clientPriorityDiags_eq]
    simp only [priorityCheck]
    rw [if_neg]
    rintro ⟨-, hcmp | hcmp⟩ <;> rw [hn] at hcmp <;> simp [numLt, numGt] at hcmp
  · intro row i sheets n hn hu
    rw [taskPriorityDiags_eq]
    simp only [priorityCheck]
    constructor
    · intro hrange
      rw [if_pos]
      exact ⟨hu, by rcases hrange with h | h <;> simp [numLt, numGt, hn, h]⟩
    · intro h1 h5
      rw [if_neg]
      rintro ⟨-, hcmp | hcmp⟩ <;> rw [hn] at hcmp <;> simp [numLt, numGt] at hcmp <;> omega
  · intro row i sheets hn
    rw [taskPriorityDiags_eq]
    simp only [priorityCheck]
    rw [if_neg]
    rintro ⟨-, hcmp | hcmp⟩ <;> rw [hn] at hcmp <;> simp [numLt, numGt] at hcmp
  · intro row i sheets n hn hu
    rw [taskDurationDiags_eq]
    simp only [taskDurationCheck]
    constructor
    · intro hlt
      rw [if_pos]
      exact ⟨hu, by simp [numLt, hn, hlt]⟩
    · intro h1
      rw [if_neg]
      rintro ⟨-, hcmp⟩
      rw [hn] at hcmp
      simp [numLt] at hcmp
      omega
  · intro row i sheets hn
    rw [taskDurationDiags_eq]
    simp only [taskDurationCheck]
    rw [if_neg]
    rintro ⟨-, hcmp⟩
    rw [hn] at hcmp
    simp [numLt] at hcmp

/-- Closed witness for `claim_C1`: client priority 6 errors and 3 passes,
task priority 0 errors and 3 passes, non-numeric duration produces
nothing. -/
theorem claim_C1_witness :
    clientPriorityDiags [("priorityLevel", .num 6)] 0 noSheets =
      [createError .clients 0 "priorityLevel" "Priority must be 1-5." .error]
    ∧ clientPriorityDiags [("priorityLevel", .num 3)] 0 noSheets = []
    ∧ taskPriorityDiags [("priority", .num 0)] 0 noSheets =
        [createError .tasks 0 "priority" "Priority must be 1-5." .error]
    ∧ taskPriorityDiags [("priority", .num 3)] 0 noSheets = []
    ∧ taskDurationDiags [("duration", .str "abc")] 0 noSheets = [] := by
  refine ⟨?_, ?_, ?_, ?_, ?_⟩
  · exact (claim_C1.1 [("priorityLevel", .num 6)] 0 noSheets 6 rfl (by decide)).1
      (Or.inr (by decide))
  · exact (claim_C1.1 [("priorityLevel", .num 3)] 0 noSheets 3 rfl (by decide)).2
      (by decide) (by decide)
  · exact (claim_C1.2.2.1 [("priority", .num 0)] 0 noSheets 0 rfl (by decide)).1
      (Or.inl (by decide))
  · exact (claim_C1.2.2.1 [("priority", .num 3)] 0 noSheets 3 rfl (by decide)).2
      (by decide) (by decide)
  · exact claim_C1.2.2.2.2.2 [("duration", .str "abc")] 0 noSheets rfl

/-! ## Duplicate-id check: specification and refinement (C3, C10) -/

/-- Spec-side first-occurrence index: the least index in `rows` of a row
whose id is non-blank and string-equal to `s`. -/
def firstIdxOf (e : EntityType) : List Row → String → Option Nat
  | [], _ => none
  | row :: rest, s =>
    if !blankId e row && (jsToString (rowIdValue e row) == s) then some 0
    else (firstIdxOf e rest s).map (· + 1)

/-- Modelled from the spec's words: scanning `rows` after `processed`, a
row with a non-blank id whose `String(id)` already occurs at an earlier
(non-blank) row yields exactly one "Duplicate ID" error naming the first
occurrence's 1-based position; blank ids are skipped. -/
def dupIdSpecGo (e : EntityType) (processed : List Row) : List Row → List Diagnostic
  | [] => []
  | row :: rest =>
    (if blankId e row then []
     else
       match firstIdxOf e processed (jsToString (rowIdValue e row)) with
       | some i =>
         [createError e (processed.length : Int) "id"
           ("Duplicate ID \"" ++ jsToString (rowIdValue e row) ++ "\" also found at row "
             ++ toString (i + 1)) .error]
       | none => []) ++ dupIdSpecGo e (processed ++ [row]) rest

/-- The transparent duplicate-id specification for a whole dataset. -/
def dupIdSpec (e : EntityType) (rows : List Row) : List Diagnostic :=
  dupIdSpecGo e [] rows

theorem firstIdxOf_append (e : EntityType) (pre : List Row) (row : Row) (s : String) :
    firstIdxOf e (pre ++ [row]) s =
      match firstIdxOf e pre s with
      | some i => some i
      | none =>
        if !blankId e row && (jsToString (rowIdValue e row) == s) then some pre.length
        else none := by
  induction pre with
  | nil =>
    simp only [List.nil_append, firstIdxOf]
    split
    · rfl
    · rfl
  | cons p ps ih =>
    simp only [List.cons_append, firstIdxOf]
    split
    · rfl
    · rw [List.append_eq, ih]
      rcases firstIdxOf e ps s with _ | i
      · by_cases hC : (!blankId e row && (jsToString (rowIdValue e row) == s)) = true <;>
          simp [hC]
      · rfl

theorem dupIdScan_go_spec (e : EntityType) (rows : List Row) :
    ∀ (pre : List Row) (ids : List (String × Nat)),
      (∀ s, List.lookup s ids = firstIdxOf e pre s) →
      dupIdScan e rows pre.length ids = dupIdSpecGo e pre rows := by
  induction rows with
  | nil => intro pre ids _; rfl
  | cons row rest ih =>
    intro pre ids hcorr
    by_cases hb : blankId e row = true
    · have hstep : dupIdScan e (row :: rest) pre.length ids =
          dupIdScan e rest (pre.length + 1) ids := by
        simp only [dupIdScan, if_pos hb]
      have hlen : pre.length + 1 = (pre ++ [row]).length := by simp
      rw [hstep, hlen, ih (pre ++ [row]) ids]
      · simp only [dupIdSpecGo, if_pos hb, List.nil_append]
      · intro s
        rw [hcorr s, firstIdxOf_append]
        rcases firstIdxOf e pre s with _ | i
        · simp [hb]
        · rfl
    · rcases hl : List.lookup (jsToString (rowIdValue e row)) ids with _ | i
      · have hstep : dupIdScan e (row :: rest) pre.length ids =
            dupIdScan e rest (pre.length + 1)
              ((jsToString (rowIdValue e row), pre.length) :: ids) := by
          simp only [dupIdScan, if_neg hb, hl]
        have hlen : pre.length + 1 = (pre ++ [row]).length := by simp
        rw [hstep, hlen, ih (pre ++ [row])]
        · have hfirst : firstIdxOf e pre (jsToString (rowIdValue e row)) = none := by
            rw [← hcorr]; exact hl
          simp only [dupIdSpecGo, if_neg hb, hfirst, List.nil_append]
        · intro s
          rw [firstIdxOf_append]
          by_cases hs : jsToString (rowIdValue e row) = s
          · have hfirst : firstIdxOf e pre s = none := by
              rw [← hs, ← hcorr]; exact hl
            rw [hfirst]
            have : (!blankId e row && (jsToString (rowIdValue e row) == s)) = true := by
              rw [hs]; simp [hb]
            simp only [List.lookup, this, if_pos]
            rw [hs]
            simp
          · have : (s == jsToString (rowIdValue e row)) = false := by
              rw [beq_eq_false_iff_ne]
              exact fun h => hs h.symm
            simp only [List.lookup, this]
            rw [hcorr s]
            rcases firstIdxOf e pre s with _ | i
            · have : (!blankId e row && (jsToString (rowIdValue e row) == s)) = false := by
                simp [beq_eq_false_iff_ne.mpr hs]
              rw [this]
              rfl
            · rfl
      · have hstep : dupIdScan e (row :: rest) pre.length ids =
            createError e (pre.length : Int) "id"
                ("Duplicate ID \"" ++ jsToString (rowIdValue e row) ++ "\" also found at row "
                  ++ toString (i + 1)) .error
              :: dupIdScan e rest (pre.length + 1) ids := by
          simp only [dupIdScan, if_neg hb, hl]
        have hlen : pre.length + 1 = (pre ++ [row]).length := by simp
        rw [hstep, hlen, ih (pre ++ [row]) ids]
        · have hfirst : firstIdxOf e pre (jsToString (rowIdValue e row)) = some i := by
            rw [← hcorr]; exact hl
          simp only [dupIdSpecGo, if_neg hb, hfirst, List.singleton_append]
        · intro s
          rw [hcorr s, firstIdxOf_append]
          rcases hf : firstIdxOf e pre s with _ | j
          · by_cases hs : jsToString (rowIdValue e row) = s
            · rw [hs] at hl
              rw [← hcorr s, hl] at hf
              exact Option.noConfusion hf
            · have : (!blankId e row && (jsToString (rowIdValue e row) == s)) = false := by
                simp [beq_eq_false_iff_ne.mpr hs]
              rw [this]
              rfl
          · rfl

/-- The implemented duplicate-id scan equals the transparent spec. -/
theorem dupIdScan_spec (e : EntityType) (rows : List Row) :
    dupIdScan e rows 0 [] = dupIdSpec e rows := by
  have := dupIdScan_go_spec e rows [] [] (fun s => rfl)
  simpa using this

/-- Sample dataset with a duplicated task id. -/
def dupSampleSheets : Sheets :=
  ⟨emptySheet, emptySheet,
    ⟨"Tasks", ["id"], [[("id", .str "T1")], [("id", .str "T2")], [("id", .str "T1")]]⟩⟩

/-- Sample dataset with the same id in two different entities. -/
def crossSampleSheets : Sheets :=
  ⟨⟨"Clients", ["id"], [[("id", .str "T1")]]⟩, emptySheet,
    ⟨"Tasks", ["id"], [[("id", .str "T1")]]⟩⟩

/-- **C3**: the duplicate-id check registers the first occurrence of each
id and flags each later row whose id string-compares equal, naming the
earlier row's 1-based position (refinement to the transparent spec
`dupIdSpec`); the check runs per entity; the dataset
`[{id:"T1"},{id:"T2"},{id:"T1"}]` produces exactly one duplicate
diagnostic, at row index 2, naming row 1; and the same id in two different
entities produces none. -/
theorem claim_C3 :
    (∀ e rows, dupIdScan e rows 0 [] = dupIdSpec e rows)
    ∧ (∀ sheets : Sheets,
        dupIdErrors sheets = entityList.flatMap fun e => dupIdSpec e (sheets.get e).jsonData)
    ∧ dupIdErrors dupSampleSheets =
        [createError .tasks 2 "id" "Duplicate ID \"T1\" also found at row 1" .error]
    ∧ dupIdErrors crossSampleSheets = [] := by
  refine ⟨dupIdScan_spec, ?_, rfl, rfl⟩
  intro sheets
  unfold dupIdErrors
  congr 1
  funext e
  exact dupIdScan_spec e (sheets.get e).jsonData

theorem mem_dupIdSpecGo {e : EntityType} {d : Diagnostic} :
    ∀ (rows pre : List Row), d ∈ dupIdSpecGo e pre rows →
      ∃ k row, rows[k]? = some row ∧ blankId e row = false
        ∧ d.rowIndex = ((pre.length + k : Nat) : Int) := by
  intro rows
  induction rows with
  | nil => intro pre h; exact absurd h (by simp [dupIdSpecGo])
  | cons row rest ih =>
    intro pre h
    simp only [dupIdSpecGo, List.mem_append] at h
    rcases h with h | h
    · by_cases hb : blankId e row = true
      · rw [if_pos hb] at h
        exact absurd h (by simp)
      · rw [if_neg hb] at h
        rcases hf : firstIdxOf e pre (jsToString (rowIdValue e row)) with _ | i <;>
          rw [hf] at h
        · exact absurd h (by simp)
        · simp only [List.mem_singleton] at h
          refine ⟨0, row, by simp, Bool.eq_false_iff.mpr hb, ?_⟩
          rw [h]
          simp [createError]
    · rcases ih (pre ++ [row]) h with ⟨k, row', hget, hbl, hidx⟩
      refine ⟨k + 1, row', by simpa using hget, hbl, ?_⟩
      rw [hidx]
      simp
      omega

/-- **C10** (implicit): rows whose id is `undefined`, `null`, or blank
after trimming are neither registered nor compared: every duplicate-id
diagnostic points at a non-blank row, and a dataset of only blank-id rows
(undefined, null, empty, whitespace) produces no duplicate-id diagnostic at
all. -/
theorem claim_C10 :
    (∀ e rows d, d ∈ dupIdScan e rows 0 [] →
      ∃ (k : Nat) (row : Row), rows[k]? = some row ∧ blankId e row = false
        ∧ d.rowIndex = (k : Int))
    ∧ (∀ e rows, (∀ row ∈ rows, blankId e row = true) → dupIdScan e rows 0 [] = [])
    ∧ dupIdScan .clients [[("id", .str " ")], [("id", .null)], [("name", .str "x")]] 0 [] = []
    := by
  refine ⟨?_, ?_, rfl⟩
  · intro e rows d h
    rw [dupIdScan_spec] at h
    rcases mem_dupIdSpecGo rows [] h with ⟨k, row, hget, hbl, hidx⟩
    exact ⟨k, row, hget, hbl, by simpa using hidx⟩
  · intro e rows hall
    rw [dupIdScan_spec]
    unfold dupIdSpec
    generalize [] = pre
    induction rows generalizing pre with
    | nil => rfl
    | cons row rest ih =>
      simp only [dupIdSpecGo, if_pos (hall row (by simp)), List.nil_append]
      exact ih (fun r hr => hall r (by simp [hr])) (pre ++ [row])

/-- Closed witness for the quantified parts of `claim_C10`. -/
theorem claim_C10_witness :
    dupIdScan .workers [[("id", .undef)], [("workerId", .null)]] 0 [] = [] :=
  claim_C10.2.1 .workers [[("id", .undef)], [("workerId", .null)]]
    (by intro row hr; fin_cases hr <;> rfl)

/-! ## Phase-capacity accounting (C5) -/

theorem upsert_keys {κ α : Type} [BEq κ] [LawfulBEq κ]
    (l : List (κ × α)) (k : κ) (f : Option α → α) :
    (upsert l k f).map Prod.fst =
      if (l.map Prod.fst).contains k then l.map Prod.fst
      else l.map Prod.fst ++ [k] := by
  induction l with
  | nil => simp [upsert]
  | cons hd tl ih =>
    rcases hd with ⟨k', v⟩
    simp only [upsert]
    by_cases hk : (k' == k) = true
    · rw [if_pos hk]
      have : k' = k := eq_of_beq hk
      subst this
      simp [List.contains_cons]
    · rw [if_neg hk]
      have hkk : (k == k') = false := by
        rw [beq_eq_false_iff_ne]
        intro h
        subst h
        simp at hk
      simp only [List.map_cons, List.contains_cons, hkk, Bool.false_or, ih]
      exact apply_ite (fun l => k' :: l) _ _ _

theorem nodup_upsert {κ α : Type} [BEq κ] [LawfulBEq κ]
    {l : List (κ × α)} {k : κ} {f : Option α → α}
    (h : (l.map Prod.fst).Nodup) : ((upsert l k f).map Prod.fst).Nodup := by
  rw [upsert_keys]
  split
  · exact h
  · rename_i hc
    refine List.Nodup.append h (List.nodup_singleton k) ?_
    intro x hx hxk
    rw [List.mem_singleton] at hxk
    subst hxk
    exact hc (List.elem_iff.mpr hx)

theorem phaseReq_keys_nodup (rows : List Row) :
    ∀ acc : List (String × Option Int), (acc.map Prod.fst).Nodup →
      ((rows.foldl phaseReqStep acc).map Prod.fst).Nodup := by
  induction rows with
  | nil => intro acc h; exact h
  | cons t rest ih =>
    intro acc h
    rw [List.foldl_cons]
    apply ih
    simp only [phaseReqStep]
    split
    · exact h
    · exact nodup_upsert h

theorem phaseReq_ignores (rows : List Row) :
    ∀ acc : List (String × Option Int),
      rows.foldl phaseReqStep acc =
        (rows.filter
          (fun t => !(getNormalizedValue t ["phase", "taskPhase"]).isUndef)).foldl
          phaseReqStep acc := by
  induction rows with
  | nil => intro acc; rfl
  | cons t rest ih =>
    intro acc
    rw [List.foldl_cons]
    by_cases hu : (getNormalizedValue t ["phase", "taskPhase"]).isUndef = true
    · have hstep : phaseReqStep acc t = acc := by simp [phaseReqStep, hu]
      rw [hstep, ih, List.filter_cons]
      simp [hu]
    · simp only [Bool.not_eq_true] at hu
      have hpt : (!(getNormalizedValue t ["phase", "taskPhase"]).isUndef) = true := by
        simp [hu]
      rw [List.filter_cons, if_pos hpt, List.foldl_cons]
      exact ih (phaseReqStep acc t)

theorem mem_phaseSaturationErrors {sheets : Sheets} {d : Diagnostic} :
    d ∈ phaseSaturationErrors sheets ↔
      ∃ p r, (p, some r) ∈ phaseRequirements sheets
        ∧ phaseAvailable sheets p < r
        ∧ d = overloadDiag p r (phaseAvailable sheets p) := by
  unfold phaseSaturationErrors
  rw [List.mem_filterMap]
  constructor
  · rintro ⟨⟨p, req⟩, hmem, heq⟩
    rcases req with _ | r
    · exact absurd heq (by simp)
    · dsimp only at heq
      by_cases hlt : phaseAvailable sheets p < r
      · rw [if_pos hlt] at heq
        exact ⟨p, r, hmem, hlt, (Option.some_inj.mp heq).symm⟩
      · rw [if_neg hlt] at heq
        exact absurd heq (by simp)
  · rintro ⟨p, r, hmem, hlt, hd⟩
    refine ⟨(p, some r), hmem, ?_⟩
    dsimp only
    rw [if_pos hlt, hd]

/-- Sample dataset of the spec: two workers listing phase 1, one task of
duration 5 at phase 1. -/
def satSampleSheets : Sheets :=
  ⟨emptySheet,
    ⟨"Workers", ["availableSlots"],
      [[("availableSlots", .arr [.num 1])], [("availableSlots", .arr [.num 1])]]⟩,
    ⟨"Tasks", ["duration", "phase"], [[("duration", .num 5), ("phase", .num 1)]]⟩⟩

/-- **C5**: the phase-requirement map carries at most one entry per phase
key (so at most one saturation error per phase); a diagnostic is emitted
exactly for the phases whose required duration sum exceeds the available
slot count, with the computed totals in the message; tasks without an
explicit `phase`/`taskPhase` field (e.g. tasks using only
`preferredPhases`) contribute nothing to the requirements; and the spec's
example (slots `{1:2}`, required duration 5 at phase 1) yields exactly the
"requires 5 slots, but only 2 are available." error. -/
theorem claim_C5 :
    (∀ sheets : Sheets, ((phaseRequirements sheets).map Prod.fst).Nodup)
    ∧ (∀ (sheets : Sheets) (d : Diagnostic),
        d ∈ phaseSaturationErrors sheets ↔
          ∃ p r, (p, some r) ∈ phaseRequirements sheets
            ∧ phaseAvailable sheets p < r
            ∧ d = overloadDiag p r (phaseAvailable sheets p))
    ∧ (∀ rows : List Row,
        phaseRequirementsOf rows =
          phaseRequirementsOf
            (rows.filter (fun t => !(getNormalizedValue t ["phase", "taskPhase"]).isUndef)))
    ∧ phaseSaturationErrors satSampleSheets = [overloadDiag "1" 5 2]
    ∧ overloadDiag "1" 5 2 =
        createError .tasks (-1) "Phase Saturation"
          "Phase 1 overloaded: requires 5 slots, but only 2 are available." .error := by
  refine ⟨?_, ?_, ?_, rfl, rfl⟩
  · intro sheets
    exact phaseReq_keys_nodup _ [] (by simp)
  · intro sheets d
    exact mem_phaseSaturationErrors
  · intro rows
    exact phaseReq_ignores rows []

/-- Closed witness exercising `claim_C5`'s membership characterization at
the sample dataset. -/
theorem claim_C5_witness :
    overloadDiag "1" 5 2 ∈ phaseSaturationErrors satSampleSheets :=
  (claim_C5.2.1 satSampleSheets (overloadDiag "1" 5 2)).mpr
    ⟨"1", 5, by decide, by decide, by decide⟩

/-! ## Deterministic diagnostic ids (C6) -/

/-- A diagnostic produced by one of the two `createError` helpers. -/
def IsCreated (d : Diagnostic) : Prop :=
  ∃ e i f m lv, d = createError e i f m lv

theorem IsCreated.id_eq {d : Diagnostic} (h : IsCreated d) :
    d.id = mkErrorId d.entity d.rowIndex d.field d.message := by
  rcases h with ⟨e, i, f, m, lv, rfl⟩
  rfl

theorem mem_singleton_created {d : Diagnostic} {e : EntityType} {i : Int}
    {f m : String} {lv : Level} (h : d ∈ [createError e i f m lv]) : IsCreated d := by
  rw [List.mem_singleton] at h
  exact ⟨e, i, f, m, lv, h⟩

theorem mem_schemaErrors_created {sheets : Sheets} {d : Diagnostic}
    (h : d ∈ schemaErrors sheets) : IsCreated d := by
  simp only [schemaErrors, List.mem_flatMap] at h
  rcases h with ⟨e, _, hd⟩
  split at hd
  · split at hd
    · exact mem_singleton_created hd
    · exact absurd hd (by simp)
  · exact absurd hd (by simp)

theorem mem_dupIdScan_created {e : EntityType} {d : Diagnostic} :
    ∀ {rows : List Row} {n : Nat} {ids : List (String × Nat)},
      d ∈ dupIdScan e rows n ids → IsCreated d := by
  intro rows
  induction rows with
  | nil => intro n ids h; exact absurd h (List.not_mem_nil d)
  | cons row rest ih =>
    intro n ids h
    simp only [dupIdScan] at h
    split at h
    · exact ih h
    · split at h
      · rcases h with _ | ⟨_, h⟩
        · exact ⟨_, _, _, _, _, rfl⟩
        · exact ih h
      · exact ih h

theorem mem_jsonColumnErrors_created {e : EntityType} {row : Row} {i : Int} {d : Diagnostic}
    (h : d ∈ jsonColumnErrors e row i) : IsCreated d := by
  simp only [jsonColumnErrors, List.mem_filterMap] at h
  rcases h with ⟨kv, _, hf⟩
  split at hf
  · rcases he : (parseJsonString kv.2).error with _ | msg <;> rw [he] at hf
    · exact absurd hf (by simp)
    · simp only [Option.map_some'] at hf
      exact ⟨_, _, _, _, _, (Option.some_inj.mp hf).symm⟩
  · exact absurd hf (by simp)

theorem mem_priorityCheck_created {e : EntityType} {f : String} {vars : List String}
    {row : Row} {i : Int} {d : Diagnostic}
    (h : d ∈ priorityCheck e f vars row i) : IsCreated d := by
  simp only [priorityCheck] at h
  split at h
  · exact mem_singleton_created h
  · exact absurd h (by simp)

theorem mem_clientTasksCheck_created {row : Row} {i : Int} {sheets : Sheets} {d : Diagnostic}
    (h : d ∈ clientTasksCheck row i sheets) : IsCreated d := by
  simp only [clientTasksCheck] at h
  split at h
  · exact mem_singleton_created h
  · simp only [List.mem_filterMap] at h
    rcases h with ⟨t, _, heq⟩
    split at heq
    · exact Option.noConfusion heq
    · exact ⟨_, _, _, _, _, (Option.some_inj.mp heq).symm⟩

theorem mem_workerSlotsCheck_created {row : Row} {i : Int} {d : Diagnostic}
    (h : d ∈ workerSlotsCheck row i) : IsCreated d := by
  simp only [workerSlotsCheck] at h
  split at h
  · exact mem_singleton_created h
  · split at h
    · exact mem_singleton_created h
    · exact absurd h (by simp)

theorem mem_workerMaxLoadCheck_created {row : Row} {i : Int} {d : Diagnostic}
    (h : d ∈ workerMaxLoadCheck row i) : IsCreated d := by
  simp only [workerMaxLoadCheck] at h
  split at h
  · exact mem_singleton_created h
  · exact absurd h (by simp)

theorem mem_workerSkillsCheck_created {row : Row} {i : Int} {d : Diagnostic}
    (h : d ∈ workerSkillsCheck row i) : IsCreated d := by
  simp only [workerSkillsCheck] at h
  split at h
  · exact mem_singleton_created h
  · exact absurd h (by simp)

theorem mem_taskDurationCheck_created {row : Row} {i : Int} {d : Diagnostic}
    (h : d ∈ taskDurationCheck row i) : IsCreated d := by
  simp only [taskDurationCheck] at h
  split at h
  · exact mem_singleton_created h
  · exact absurd h (by simp)

theorem mem_taskPhasesCheck_created {row : Row} {i : Int} {d : Diagnostic}
    (h : d ∈ taskPhasesCheck row i) : IsCreated d := by
  simp only [taskPhasesCheck] at h
  split at h
  · exact mem_singleton_created h
  · split at h
    · exact mem_singleton_created h
    · exact absurd h (by simp)

theorem mem_taskMaxConcurrentCheck_created {row : Row} {i : Int} {sheets : Sheets}
    {d : Diagnostic} (h : d ∈ taskMaxConcurrentCheck row i sheets) : IsCreated d := by
  simp only [taskMaxConcurrentCheck] at h
  split at h
  · split at h
    · exact mem_singleton_created h
    · split at h
      · exact mem_singleton_created h
      · exact absurd h (by simp)
  · exact absurd h (by simp)

theorem mem_validateRow_created {e : EntityType} {row : Row} {i : Int} {sheets : Sheets}
    {d : Diagnostic} (h : d ∈ validateRow e row i sheets) : IsCreated d := by
  cases e
  · rw [validateRow_clients, List.mem_append] at h
    rcases h with h | h
    · exact mem_jsonColumnErrors_created h
    · unfold validateClientRow at h
      rw [List.mem_append] at h
      rcases h with h | h
      · exact mem_priorityCheck_created h
      · exact mem_clientTasksCheck_created h
  · rw [validateRow_workers, List.mem_append] at h
    rcases h with h | h
    · exact mem_jsonColumnErrors_created h
    · unfold validateWorkerRow at h
      rw [List.mem_append, List.mem_append] at h
      rcases h with (h | h) | h
      · exact mem_workerSlotsCheck_created h
      · exact mem_workerMaxLoadCheck_created h
      · exact mem_workerSkillsCheck_created h
  · rw [validateRow_tasks, List.mem_append] at h
    rcases h with h | h
    · exact mem_jsonColumnErrors_created h
    · unfold validateTaskRow at h
      rw [List.mem_append, List.mem_append, List.mem_append] at h
      rcases h with ((h | h) | h) | h
      · exact mem_priorityCheck_created h
      · exact mem_taskDurationCheck_created h
      · exact mem_taskPhasesCheck_created h
      · exact mem_taskMaxConcurrentCheck_created h

theorem mem_skillCoverageErrors_created {sheets : Sheets} {d : Diagnostic}
    (h : d ∈ skillCoverageErrors sheets) : IsCreated d := by
  simp only [skillCoverageErrors, List.mem_filterMap] at h
  rcases h with ⟨skill, _, heq⟩
  split at heq
  · exact Option.noConfusion heq
  · exact ⟨_, _, _, _, _, (Option.some_inj.mp heq).symm⟩

theorem mem_coRunErrors_created {sheets : Sheets} {rules : List Rule} {d : Diagnostic}
    (h : d ∈ coRunErrors sheets rules) : IsCreated d := by
  simp only [coRunErrors, List.mem_flatMap] at h
  rcases h with ⟨rule, _, hd⟩
  split at hd
  · exact mem_singleton_created hd
  · exact absurd hd (by simp)

theorem mem_slotRestrictionErrors_created {sheets : Sheets} {rules : List Rule}
    {d : Diagnostic} (h : d ∈ slotRestrictionErrors sheets rules) : IsCreated d := by
  simp only [slotRestrictionErrors, List.mem_flatMap] at h
  rcases h with ⟨rule, _, hd⟩
  rw [List.mem_append] at hd
  rcases hd with hd | hd
  · split at hd
    · split at hd
      · split at hd
        · exact absurd hd (by simp)
        · exact mem_singleton_created hd
      · exact absurd hd (by simp)
    · exact absurd hd (by simp)
  · split at hd
    · split at hd
      · split at hd
        · exact absurd hd (by simp)
        · exact mem_singleton_created hd
      · exact absurd hd (by simp)
    · exact absurd hd (by simp)

theorem mem_validateAllData_created {sheets : Sheets} {rules : List Rule} {d : Diagnostic}
    (h : d ∈ validateAllData sheets rules) : IsCreated d := by
  unfold validateAllData at h
  simp only [List.mem_append] at h
  rcases h with (((((h | h) | h) | h) | h) | h) | h
  · exact mem_schemaErrors_created h
  · simp only [dupIdErrors, List.mem_flatMap] at h
    rcases h with ⟨e, _, hd⟩
    exact mem_dupIdScan_created hd
  · simp only [rowErrors, List.mem_flatMap] at h
    rcases h with ⟨e, _, h⟩
    rcases h with ⟨p, _, hd⟩
    exact mem_validateRow_created hd
  · rw [mem_phaseSaturationErrors] at h
    rcases h with ⟨p, r, _, _, rfl⟩
    exact ⟨_, _, _, _, _, rfl⟩
  · exact mem_skillCoverageErrors_created h
  · exact mem_coRunErrors_created h
  · exact mem_slotRestrictionErrors_created h

/-- **C6**: validation is a pure function of the dataset snapshot and rule
list (two runs over the same snapshot coincide), and every diagnostic's id
is the deterministic function `` `${entity}-${rowIndex}-${field}-${message}` ``
of its own components, so identical findings across passes carry identical
ids. -/
theorem claim_C6 :
    (∀ (sheets : Sheets) (rules : List Rule),
        validateAllData sheets rules = validateAllData sheets rules)
    ∧ (∀ (e : EntityType) (i : Int) (f m : String) (lv : Level),
        (createError e i f m lv).id = mkErrorId e i f m)
    ∧ (∀ (sheets : Sheets) (rules : List Rule) (d : Diagnostic),
        d ∈ validateAllData sheets rules →
        d.id = mkErrorId d.entity d.rowIndex d.field d.message) :=
  ⟨fun _ _ => rfl, fun _ _ _ _ _ => rfl,
    fun _ _ _ h => (mem_validateAllData_created h).id_eq⟩

/-- Closed witness for `claim_C6`: the duplicate-id diagnostic of the
sample dataset carries exactly its derived id. -/
theorem claim_C6_witness :
    (createError .tasks 2 "id" "Duplicate ID \"T1\" also found at row 1" .error).id =
      mkErrorId .tasks 2 "id" "Duplicate ID \"T1\" also found at row 1" :=
  claim_C6.2.2 dupSampleSheets []
    (createError .tasks 2 "id" "Duplicate ID \"T1\" also found at row 1" .error)
    (by decide)

/-! ## Mutation interface (C7) -/

theorem updateAt_getElem_ne {α : Type} :
    ∀ (l : List α) (i j : Nat) (g : α → α), j ≠ i → (updateAt l i g)[j]? = l[j]? := by
  intro l
  induction l with
  | nil => intro i j g _; rfl
  | cons x rest ih =>
    intro i j g h
    cases i with
    | zero =>
      cases j with
      | zero => exact absurd rfl h
      | succ j' => simp [updateAt, List.getElem?_cons_succ]
    | succ i' =>
      cases j with
      | zero => simp [updateAt, List.getElem?_cons_zero]
      | succ j' =>
        simp only [updateAt, List.getElem?_cons_succ]
        exact ih i' j' g (fun hh => h (by rw [hh]))

theorem updateAt_getElem_eq {α : Type} :
    ∀ (l : List α) (i : Nat) (g : α → α), (updateAt l i g)[i]? = (l[i]?).map g := by
  intro l
  induction l with
  | nil => intro i g; rfl
  | cons x rest ih =>
    intro i g
    cases i with
    | zero => simp [updateAt, List.getElem?_cons_zero]
    | succ i' =>
      simp only [updateAt, List.getElem?_cons_succ]
      exact ih i' g

/-- The cell-edit write resolves to a key whose normalized name is the
edited field's, so looking the field up again returns the new value. -/
theorem setRowField_lookup :
    ∀ (row : Row) (f : String) (v : JsValue),
      getNormalizedValue (setRowField row f v) [f] = v := by
  intro row
  induction row with
  | nil =>
    intro f v
    simp [setRowField, upsert, getNormalizedValue]
  | cons kv rest ih =>
    intro f v
    rcases kv with ⟨k0, v0⟩
    by_cases h0 : (normalizeFieldName k0 == normalizeFieldName f) = true
    · have hfind : ((k0, v0) :: rest).find?
          (fun kv => normalizeFieldName kv.1 == normalizeFieldName f) = some (k0, v0) :=
        List.find?_cons_of_pos _ h0
      have hsrf : setRowField ((k0, v0) :: rest) f v = (k0, v) :: rest := by
        simp only [setRowField, hfind]
        simp [upsert]
      rw [hsrf]
      have hfind2 : ((k0, v) :: rest).find?
          (fun kv => normalizeFieldName kv.1 == normalizeFieldName f) = some (k0, v) :=
        List.find?_cons_of_pos _ h0
      simp only [getNormalizedValue, hfind2]
    · have h0f : (normalizeFieldName k0 == normalizeFieldName f) = false := by
        simpa using h0
      have hfind : ((k0, v0) :: rest).find?
          (fun kv => normalizeFieldName kv.1 == normalizeFieldName f) =
            rest.find? (fun kv => normalizeFieldName kv.1 == normalizeFieldName f) :=
        List.find?_cons_of_neg _ (by simp [h0f])
      have hkeyne : ∀ kt : String, normalizeFieldName kt = normalizeFieldName f →
          (k0 == kt) = false := by
        intro kt hkt
        rw [beq_eq_false_iff_ne]
        intro hk
        rw [hk, hkt] at h0f
        simp at h0f
      have hsrf : setRowField ((k0, v0) :: rest) f v = (k0, v0) :: setRowField rest f v := by
        simp only [setRowField, hfind]
        rcases hf : rest.find? (fun kv => normalizeFieldName kv.1 == normalizeFieldName f)
          with _ | kv1
        · rw [hf]
          simp [upsert, hkeyne f rfl]
        · rw [hf]
          have hp := List.find?_some hf
          have hkv1 : normalizeFieldName kv1.1 = normalizeFieldName f := eq_of_beq hp
          simp [upsert, hkeyne kv1.1 hkv1]
      rw [hsrf]
      have hskip : getNormalizedValue ((k0, v0) :: setRowField rest f v) [f] =
          getNormalizedValue (setRowField rest f v) [f] := by
        have hfind3 : ((k0, v0) :: setRowField rest f v).find?
            (fun kv => normalizeFieldName kv.1 == normalizeFieldName f) =
              (setRowField rest f v).find?
                (fun kv => normalizeFieldName kv.1 == normalizeFieldName f) :=
          List.find?_cons_of_neg _ (by simp [h0f])
        simp only [getNormalizedValue, hfind3]
      rw [hskip]
      exact ih f v

/-- Sample dataset for the mutation scenario: two clients with out-of-range
priorities 7 and 0. -/
def editSampleSheets : Sheets :=
  ⟨⟨"Clients", ["id", "priorityLevel"],
      [[("id", .str "C1"), ("priorityLevel", .num 7)],
       [("id", .str "C2"), ("priorityLevel", .num 0)]]⟩,
    emptySheet, emptySheet⟩

/-- **C7**: the cell-edit mutation only touches the targeted cell's row —
other entities, the headers, and every other row are unchanged — and it
writes through the row's normalized-key resolution (so the edited field
reads back the new value).  Re-validating the sample dataset after fixing
`priorityLevel` 7 → "3" removes exactly the corresponding diagnostic id
while the unrelated diagnostic is reproduced with an unchanged id. -/
theorem claim_C7 :
    (∀ (sheets : Sheets) (e e' : EntityType) (i : Nat) (f : String) (v : JsValue),
        e' ≠ e → (setField sheets e i f v).get e' = sheets.get e')
    ∧ (∀ (sheets : Sheets) (e : EntityType) (i : Nat) (f : String) (v : JsValue),
        ((setField sheets e i f v).get e).headers = (sheets.get e).headers)
    ∧ (∀ (sheets : Sheets) (e : EntityType) (i j : Nat) (f : String) (v : JsValue),
        j ≠ i →
        ((setField sheets e i f v).get e).jsonData[j]? = (sheets.get e).jsonData[j]?)
    ∧ (∀ (sheets : Sheets) (e : EntityType) (i : Nat) (f : String) (v : JsValue),
        ((setField sheets e i f v).get e).jsonData[i]? =
          ((sheets.get e).jsonData[i]?).map (fun row => setRowField row f v))
    ∧ (∀ (row : Row) (f : String) (v : JsValue),
        getNormalizedValue (setRowField row f v) [f] = v)
    ∧ validateAllData editSampleSheets [] =
        [createError .clients 0 "priorityLevel" "Priority must be 1-5." .error,
         createError .clients 1 "priorityLevel" "Priority must be 1-5." .error]
    ∧ validateAllData (setField editSampleSheets .clients 0 "priorityLevel" (.str "3")) [] =
        [createError .clients 1 "priorityLevel" "Priority must be 1-5." .error]
    ∧ (createError .clients 0 "priorityLevel" "Priority must be 1-5." .error).id ∉
        (validateAllData (setField editSampleSheets .clients 0 "priorityLevel" (.str "3")) []).map
          (fun d => d.id) := by
  refine ⟨?_, ?_, ?_, ?_, setRowField_lookup, rfl, rfl, by decide⟩
  · intro sheets e e' i f v h
    cases e <;> cases e' <;> first | rfl | exact absurd rfl h
  · intro sheets e i f v
    cases e <;> rfl
  · intro sheets e i j f v h
    have hdata : ((setField sheets e i f v).get e).jsonData =
        updateAt (sheets.get e).jsonData i (fun row => setRowField row f v) := by
      cases e <;> rfl
    rw [hdata, updateAt_getElem_ne _ _ _ _ h]
  · intro sheets e i f v
    have hdata : ((setField sheets e i f v).get e).jsonData =
        updateAt (sheets.get e).jsonData i (fun row => setRowField row f v) := by
      cases e <;> rfl
    rw [hdata, updateAt_getElem_eq]

/-- Closed witness for `claim_C7`'s quantified frame parts. -/
theorem claim_C7_witness :
    (setField editSampleSheets .clients 0 "priorityLevel" (.str "3")).get .tasks =
      editSampleSheets.get .tasks
    ∧ ((setField editSampleSheets .clients 0 "priorityLevel" (.str "3")).get .clients).jsonData[1]? =
        (editSampleSheets.get .clients).jsonData[1]? :=
  ⟨claim_C7.1 editSampleSheets .clients .tasks 0 "priorityLevel" (.str "3") (by decide),
    claim_C7.2.2.1 editSampleSheets .clients 0 1 "priorityLevel" (.str "3") (by decide)⟩

/-! ## Co-run cycle detection: soundness of the DFS (C4) -/

/-- One dependency edge of a co-run graph. -/
def Edge (g : List (String × List String)) (a b : String) : Prop :=
  b ∈ graphDeps g a

/-- The graph has a directed cycle: some node reaches itself by a nonempty
edge path. -/
def GHasCycle (g : List (String × List String)) : Prop :=
  ∃ u, Relation.TransGen (Edge g) u u

/-- The gray recursion stack is a chain: each entry is a dependency of the
entry below it. -/
def StackInv (g : List (String × List String)) : List String → Prop
  | a :: b :: rest => Edge g b a ∧ StackInv g (b :: rest)
  | _ => True

theorem stack_reaches (g : List (String × List String)) :
    ∀ (rest : List String) (w : String), StackInv g (w :: rest) →
      ∀ d ∈ w :: rest, Relation.ReflTransGen (Edge g) d w := by
  intro rest
  induction rest with
  | nil =>
    intro w _ d hd
    rw [List.mem_singleton] at hd
    subst hd
    exact .refl
  | cons b rest' ih =>
    intro w hinv d hd
    rcases hinv with ⟨hedge, hinv'⟩
    rcases List.mem_cons.mp hd with h | h
    · subst h
      exact .refl
    · exact (ih b hinv' d h).tail hedge

theorem dfs_sound : ∀ (fuel : Nat) (g : List (String × List String)),
    (∀ (stack visited : List String) (u : String),
      StackInv g (u :: stack) → (dfsVisit g fuel stack visited u).1 = true → GHasCycle g)
    ∧ (∀ (stack visited deps : List String) (w : String) (rest : List String),
      stack = w :: rest → StackInv g stack → (∀ d ∈ deps, Edge g w d) →
      (dfsDeps g fuel stack visited deps).1 = true → GHasCycle g) := by
  intro fuel
  induction fuel with
  | zero =>
    intro g
    constructor
    · intro stack visited u _ h
      exact absurd h (by simp [dfsVisit])
    · intro stack visited deps w rest _ _ _ h
      exact absurd h (by simp [dfsDeps])
  | succ f ih =>
    intro g
    constructor
    · intro stack visited u hinv h
      exact (ih g).2 (u :: stack) (u :: visited) (graphDeps g u) u stack rfl hinv
        (fun d hd => hd) h
    · intro stack visited deps w rest hstack hinv hedges h
      cases deps with
      | nil => exact absurd h (by simp [dfsDeps])
      | cons d ds =>
        by_cases hv : visited.contains d = true
        · by_cases hs : stack.contains d = true
          · subst hstack
            have hdmem : d ∈ w :: rest := List.elem_iff.mp hs
            have hpath : Relation.ReflTransGen (Edge g) d w :=
              stack_reaches g rest w hinv d hdmem
            exact ⟨d, Relation.TransGen.tail' hpath (hedges d (by simp))⟩
          · have hrec : (dfsDeps g (f + 1) stack visited (d :: ds)).1 =
                (dfsDeps g f stack visited ds).1 := by
              have hv' : d ∈ visited := List.elem_iff.mp hv
              have hs' : d ∉ stack := fun hm => hs (List.elem_iff.mpr hm)
              simp [dfsDeps, hv', hs']
            rw [hrec] at h
            exact (ih g).2 stack visited ds w rest hstack hinv
              (fun d' hd' => hedges d' (by simp [hd'])) h
        · rcases hvt : dfsVisit g f stack visited d with ⟨found, v2⟩
          cases found
          · have hrec : (dfsDeps g (f + 1) stack visited (d :: ds)).1 =
                (dfsDeps g f stack v2 ds).1 := by
              have hv' : d ∉ visited := fun hm => hv (List.elem_iff.mpr hm)
              simp [dfsDeps, hv', hvt]
            rw [hrec] at h
            exact (ih g).2 stack v2 ds w rest hstack hinv
              (fun d' hd' => hedges d' (by simp [hd'])) h
          · subst hstack
            have hinv' : StackInv g (d :: w :: rest) := ⟨hedges d (by simp), hinv⟩
            have hfound : (dfsVisit g f (w :: rest) visited d).1 = true := by rw [hvt]
            exact (ih g).1 (w :: rest) visited d hinv' hfound

/-! ## Co-run cycle detection: completeness of the DFS (C4) -/

theorem pot_mono (g : List (String × List String)) :
    ∀ (N : List String) {a b : List String}, (∀ x ∈ a, x ∈ b) →
      potential g b N ≤ potential g a N := by
  intro N
  induction N with
  | nil => intro a b _; exact le_refl _
  | cons x N' ih =>
    intro a b hab
    simp only [potential]
    apply Nat.add_le_add _ (ih hab)
    by_cases hxa : x ∈ a
    · simp [hxa, hab x hxa]
    · have hxa' : ¬ a.contains x = true := fun hc => hxa (List.elem_iff.mp hc)
      rw [if_neg hxa']
      split
      · exact Nat.zero_le _
      · exact le_refl _

theorem pot_insert (g : List (String × List String)) :
    ∀ (N : List String) {u : String} {v : List String}, u ∈ N → u ∉ v →
      potential g (u :: v) N + (2 + (graphDeps g u).length) ≤ potential g v N := by
  intro N
  induction N with
  | nil => intro u v hu _; exact absurd hu (by simp)
  | cons x N' ih =>
    intro u v huN huv
    simp only [potential]
    have hmono : potential g (u :: v) N' ≤ potential g v N' :=
      pot_mono g N' (fun y hy => List.mem_cons_of_mem _ hy)
    rcases List.mem_cons.mp huN with hx | hx
    · subst hx
      have h1 : (u :: v).contains u = true := List.elem_iff.mpr (List.mem_cons_self u v)
      have h2 : ¬ v.contains u = true := fun hc => huv (List.elem_iff.mp hc)
      rw [if_pos h1, if_neg h2]
      omega
    · by_cases hxv : x ∈ v
      · have h1 : (u :: v).contains x = true :=
          List.elem_iff.mpr (List.mem_cons_of_mem _ hxv)
        have h2 : v.contains x = true := List.elem_iff.mpr hxv
        rw [if_pos h1, if_pos h2]
        have := ih hx huv
        omega
      · have h2 : ¬ v.contains x = true := fun hc => hxv (List.elem_iff.mp hc)
        by_cases hxu : x = u
        · subst hxu
          have h1 : (x :: v).contains x = true :=
            List.elem_iff.mpr (List.mem_cons_self x v)
          rw [if_pos h1, if_neg h2]
          omega
        · have h1 : ¬ (u :: v).contains x = true := fun hc =>
            (List.mem_cons.mp (List.elem_iff.mp hc)).elim hxu hxv
          rw [if_neg h1, if_neg h2]
          have := ih hx huv
          omega

/-- The completed ("black") nodes: visited and off the gray stack.  Their
dependencies are black again, and none of them lies on a cycle. -/
def BlacksInv (g : List (String × List String)) (v s : List String) : Prop :=
  ∀ b, b ∈ v → b ∉ s →
    (∀ d ∈ graphDeps g b, d ∈ v ∧ d ∉ s) ∧ ¬ Relation.TransGen (Edge g) b b

theorem blacks_reach {g : List (String × List String)} {v s : List String}
    (hB : BlacksInv g v s) :
    ∀ {b x}, Relation.ReflTransGen (Edge g) b x → b ∈ v → b ∉ s → x ∈ v ∧ x ∉ s := by
  intro b x h
  induction h using Relation.ReflTransGen.head_induction_on with
  | refl => intro hv hs; exact ⟨hv, hs⟩
  | head hstep _ ihtail =>
    intro hv hs
    have hc := (hB _ hv hs).1 _ hstep
    exact ihtail hc.1 hc.2

theorem dfs_complete : ∀ (fuel : Nat) (g : List (String × List String)) (N : List String),
    (∀ k d, d ∈ graphDeps g k → d ∈ N) →
    ((∀ (stack visited : List String) (u : String) (v' : List String),
        u ∈ N → u ∉ visited →
        potential g visited N ≤ fuel →
        (∀ x ∈ stack, x ∈ visited) →
        BlacksInv g visited stack →
        dfsVisit g fuel stack visited u = (false, v') →
        (∀ x ∈ visited, x ∈ v') ∧ u ∈ v' ∧ BlacksInv g v' stack)
    ∧ (∀ (stack visited deps : List String) (v' : List String),
        (∀ d ∈ deps, d ∈ N) →
        potential g visited N + deps.length ≤ fuel →
        (∀ x ∈ stack, x ∈ visited) →
        BlacksInv g visited stack →
        dfsDeps g fuel stack visited deps = (false, v') →
        (∀ x ∈ visited, x ∈ v') ∧ BlacksInv g v' stack
          ∧ (∀ d ∈ deps, d ∈ v' ∧ d ∉ stack))) := by
  intro fuel
  induction fuel with
  | zero =>
    intro g N HN
    constructor
    · intro stack visited u v' huN huv hfuel _ _ _
      have := pot_insert g N huN huv
      omega
    · intro stack visited deps v' _ hfuel _ hB hrun
      cases deps with
      | nil =>
        have heq : dfsDeps g 0 stack visited [] = (false, visited) := by simp [dfsDeps]
        rw [heq] at hrun
        injection hrun with _ h
        subst h
        exact ⟨fun x hx => hx, hB, by simp⟩
      | cons d ds =>
        rw [List.length_cons] at hfuel
        omega
  | succ f ih =>
    intro g N HN
    have ihV := (ih g N HN).1
    have ihD := (ih g N HN).2
    constructor
    · intro stack visited u v' huN huv hfuel hstack hB hrun
      have hrun' : dfsDeps g f (u :: stack) (u :: visited) (graphDeps g u) = (false, v') := hrun
      have hins := pot_insert g N huN huv
      have hd := ihD (u :: stack) (u :: visited) (graphDeps g u) v'
        (fun d hd => HN u d hd)
        (by omega)
        (by
          intro x hx
          rcases List.mem_cons.mp hx with h | h
          · simp [h]
          · simp [hstack x h])
        (by
          intro b hbv hbs
          have hbne : b ≠ u := fun he => hbs (he ▸ List.mem_cons_self u stack)
          have hbv' : b ∈ visited := by
            rcases List.mem_cons.mp hbv with h | h
            · exact absurd h hbne
            · exact h
          have hbs' : b ∉ stack := fun hm => hbs (List.mem_cons_of_mem _ hm)
          rcases hB b hbv' hbs' with ⟨hdeps, hcyc⟩
          refine ⟨?_, hcyc⟩
          intro dd hdd
          rcases hdeps dd hdd with ⟨hdv, hds⟩
          have hddne : dd ≠ u := fun he => huv (he ▸ hdv)
          exact ⟨List.mem_cons_of_mem _ hdv,
            fun hm => (List.mem_cons.mp hm).elim hddne hds⟩)
        hrun'
      rcases hd with ⟨hgrow, hBpost, hdeps⟩
      refine ⟨fun x hx => hgrow x (List.mem_cons_of_mem _ hx),
        hgrow u (List.mem_cons_self u visited), ?_⟩
      intro b hbv' hbs
      by_cases hbu : b = u
      · subst hbu
        constructor
        · intro dd hdd
          rcases hdeps dd hdd with ⟨hdv, hds⟩
          exact ⟨hdv, fun hm => hds (List.mem_cons_of_mem _ hm)⟩
        · intro hcyc
          rcases Relation.TransGen.head'_iff.mp hcyc with ⟨c, hedge, hreach⟩
          rcases hdeps c hedge with ⟨hcv, hcs⟩
          exact (blacks_reach hBpost hreach hcv hcs).2 (List.mem_cons_self b stack)
      · have hbs' : b ∉ u :: stack := fun hm => (List.mem_cons.mp hm).elim hbu hbs
        rcases hBpost b hbv' hbs' with ⟨hdeps', hcyc⟩
        refine ⟨fun dd hdd => ?_, hcyc⟩
        rcases hdeps' dd hdd with ⟨hdv, hds⟩
        exact ⟨hdv, fun hm => hds (List.mem_cons_of_mem _ hm)⟩
    · intro stack visited deps v' hdepsN hfuel hstack hB hrun
      cases deps with
      | nil =>
        have heq : dfsDeps g (f + 1) stack visited [] = (false, visited) := by
          simp [dfsDeps]
        rw [heq] at hrun
        injection hrun with _ h
        subst h
        exact ⟨fun x hx => hx, hB, by simp⟩
      | cons d ds =>
        rw [List.length_cons] at hfuel
        by_cases hv : d ∈ visited
        · by_cases hs : d ∈ stack
          · have heq : dfsDeps g (f + 1) stack visited (d :: ds) = (true, visited) := by
              simp [dfsDeps, hv, hs]
            rw [heq] at hrun
            exact absurd hrun (by simp)
          · have heq : dfsDeps g (f + 1) stack visited (d :: ds) =
                dfsDeps g f stack visited ds := by
              simp [dfsDeps, hv, hs]
            rw [heq] at hrun
            rcases ihD stack visited ds v' (fun x hx => hdepsN x (by simp [hx]))
              (by omega) hstack hB hrun with ⟨hgrow, hBp, hds⟩
            refine ⟨hgrow, hBp, ?_⟩
            intro dd hdd
            rcases List.mem_cons.mp hdd with h | h
            · subst h
              exact ⟨hgrow dd hv, hs⟩
            · exact hds dd h
        · rcases hvt : dfsVisit g f stack visited d with ⟨found, v2⟩
          cases found
          · have heq : dfsDeps g (f + 1) stack visited (d :: ds) =
                dfsDeps g f stack v2 ds := by
              simp [dfsDeps, hv, hvt]
            rw [heq] at hrun
            rcases ihV stack visited d v2 (hdepsN d (by simp)) hv
              (by omega) hstack hB hvt with ⟨hgrow2, hdv2, hB2⟩
            have hins := pot_insert g N (hdepsN d (by simp)) hv
            have hpot2 : potential g v2 N + ds.length ≤ f := by
              have hmono : potential g v2 N ≤ potential g (d :: visited) N :=
                pot_mono g N (by
                  intro x hx
                  rcases List.mem_cons.mp hx with h | h
                  · subst h; exact hdv2
                  · exact hgrow2 x h)
              omega
            rcases ihD stack v2 ds v' (fun x hx => hdepsN x (by simp [hx])) hpot2
              (fun x hx => hgrow2 x (hstack x hx)) hB2 hrun with ⟨hgrow3, hBp, hds⟩
            refine ⟨fun x hx => hgrow3 x (hgrow2 x hx), hBp, ?_⟩
            intro dd hdd
            rcases List.mem_cons.mp hdd with h | h
            · subst h
              exact ⟨hgrow3 dd hdv2, fun hm => hv (hstack dd hm)⟩
            · exact hds dd h
          · have heq : dfsDeps g (f + 1) stack visited (d :: ds) = (true, v2) := by
              simp [dfsDeps, hv, hvt]
            rw [heq] at hrun
            exact absurd hrun (by simp)

/-! ## Co-run cycle detection: driver loop and the claim (C4) -/

theorem dfsRoots_true_sound :
    ∀ (roots : List String) (g : List (String × List String)) (fuel : Nat)
      (visited : List String),
      dfsRoots g fuel roots visited = true → GHasCycle g := by
  intro roots
  induction roots with
  | nil =>
    intro g fuel visited h
    exact absurd h (by simp [dfsRoots])
  | cons t rest ih =>
    intro g fuel visited h
    simp only [dfsRoots] at h
    split at h
    · exact ih g fuel visited h
    · rcases hvt : dfsVisit g fuel [] visited t with ⟨found, v2⟩
      rw [hvt] at h
      cases found with
      | false => exact ih g fuel v2 h
      | true =>
        have hb : (dfsVisit g fuel [] visited t).1 = true := by rw [hvt]
        exact (dfs_sound fuel g).1 [] visited t trivial hb

theorem dfsRoots_false_complete :
    ∀ (roots : List String) (g : List (String × List String)) (N : List String),
      (∀ k d, d ∈ graphDeps g k → d ∈ N) →
      ∀ (fuel : Nat) (visited : List String),
      (∀ t ∈ roots, t ∈ N) →
      potential g visited N ≤ fuel →
      BlacksInv g visited [] →
      dfsRoots g fuel roots visited = false →
      ∃ v', (∀ x ∈ visited, x ∈ v') ∧ (∀ t ∈ roots, t ∈ v') ∧ BlacksInv g v' [] := by
  intro roots
  induction roots with
  | nil =>
    intro g N _ fuel visited _ _ hB _
    exact ⟨visited, fun x hx => hx, by simp, hB⟩
  | cons t rest ih =>
    intro g N HN fuel visited hroots hfuel hB hrun
    simp only [dfsRoots] at hrun
    split at hrun
    · rename_i hv
      rcases ih g N HN fuel visited (fun r hr => hroots r (List.mem_cons_of_mem _ hr))
          hfuel hB hrun with ⟨v', hgrow, hcover, hB'⟩
      refine ⟨v', hgrow, ?_, hB'⟩
      intro r hr
      rcases List.mem_cons.mp hr with h | h
      · subst h
        exact hgrow r (List.elem_iff.mp hv)
      · exact hcover r h
    · rename_i hv
      have hv' : t ∉ visited := fun hm => hv (List.elem_iff.mpr hm)
      rcases hvt : dfsVisit g fuel [] visited t with ⟨found, v2⟩
      rw [hvt] at hrun
      cases found with
      | true => exact absurd hrun (by simp)
      | false =>
        rcases (dfs_complete fuel g N HN).1 [] visited t v2
            (hroots t (List.mem_cons_self t rest)) hv' hfuel (by simp) hB hvt
          with ⟨hgrow2, htv2, hB2⟩
        have hfuel2 : potential g v2 N ≤ fuel :=
          le_trans (pot_mono g N hgrow2) hfuel
        rcases ih g N HN fuel v2 (fun r hr => hroots r (List.mem_cons_of_mem _ hr))
            hfuel2 hB2 hrun with ⟨v', hgrow3, hcover, hB'⟩
        refine ⟨v', fun x hx => hgrow3 x (hgrow2 x hx), ?_, hB'⟩
        intro r hr
        rcases List.mem_cons.mp hr with h | h
        · subst h
          exact hgrow3 r htv2
        · exact hcover r h

theorem lookup_mem_pair {κ β : Type} [BEq κ] [LawfulBEq κ] :
    ∀ {l : List (κ × β)} {k : κ} {v : β}, List.lookup k l = some v → (k, v) ∈ l := by
  intro l
  induction l with
  | nil =>
    intro k v h
    exact absurd h (by simp [List.lookup])
  | cons kv rest ih =>
    intro k v h
    rcases kv with ⟨a, b⟩
    simp only [List.lookup] at h
    split at h
    · rename_i heq
      have hk : k = a := eq_of_beq heq
      injection h with h
      subst hk
      subst h
      exact List.mem_cons_self _ _
    · exact List.mem_cons_of_mem _ (ih h)

theorem graphDeps_sub (g : List (String × List String)) (k d : String)
    (hd : d ∈ graphDeps g k) : ∃ ds, (k, ds) ∈ g ∧ d ∈ ds := by
  unfold graphDeps at hd
  rcases hlk : List.lookup k g with _ | ds
  · rw [hlk] at hd
    exact absurd hd (by simp)
  · rw [hlk] at hd
    exact ⟨ds, lookup_mem_pair hlk, hd⟩

theorem graphDeps_mem_universe (g : List (String × List String)) (ts : List String)
    (k d : String) (hd : d ∈ graphDeps g k) : d ∈ nodeUniverse g ts := by
  rcases graphDeps_sub g k d hd with ⟨ds, hmem, hdds⟩
  unfold nodeUniverse
  exact List.mem_append_right _ (List.mem_flatMap.mpr ⟨(k, ds), hmem, hdds⟩)

theorem coRunGraphStep_keys (sheets : Sheets) (ts : List String)
    (acc : List (String × List String)) (x : String) :
    ∀ k ∈ (coRunGraphStep sheets ts acc x).map Prod.fst,
      k ∈ acc.map Prod.fst ∨ k = x := by
  intro k hk
  unfold coRunGraphStep at hk
  split at hk
  · simp only [upsert_keys] at hk
    split at hk
    · exact .inl hk
    · rcases List.mem_append.mp hk with h | h
      · exact .inl h
      · exact .inr (List.mem_singleton.mp h)
  · exact .inl hk

theorem foldl_coRunGraph_keys (sheets : Sheets) (ts : List String) :
    ∀ (l : List String) (acc : List (String × List String)),
      (∀ k ∈ acc.map Prod.fst, k ∈ ts) → (∀ x ∈ l, x ∈ ts) →
      ∀ k ∈ (l.foldl (coRunGraphStep sheets ts) acc).map Prod.fst, k ∈ ts := by
  intro l
  induction l with
  | nil =>
    intro acc hacc _ k hk
    exact hacc k hk
  | cons x rest ih =>
    intro acc hacc hl k hk
    rw [List.foldl_cons] at hk
    refine ih (coRunGraphStep sheets ts acc x) ?_
      (fun y hy => hl y (List.mem_cons_of_mem _ hy)) k hk
    intro k2 hk2
    rcases coRunGraphStep_keys sheets ts acc x k2 hk2 with h | h
    · exact hacc k2 h
    · subst h
      exact hl k2 (List.mem_cons_self k2 rest)

theorem buildCoRunGraph_keys (sheets : Sheets) (ts : List String) :
    ∀ k ∈ (buildCoRunGraph sheets ts).map Prod.fst, k ∈ ts := by
  unfold buildCoRunGraph
  exact foldl_coRunGraph_keys sheets ts ts [] (by simp) (fun x hx => hx)

theorem coRun_check_iff (sheets : Sheets) (ts : List String) :
    dfsRoots (buildCoRunGraph sheets ts)
        (dfsFuel (buildCoRunGraph sheets ts) ts) ts [] = true
      ↔ GHasCycle (buildCoRunGraph sheets ts) := by
  constructor
  · exact dfsRoots_true_sound ts (buildCoRunGraph sheets ts) _ []
  · intro hcyc
    by_contra hfalse
    rw [Bool.not_eq_true] at hfalse
    rcases dfsRoots_false_complete ts (buildCoRunGraph sheets ts)
        (nodeUniverse (buildCoRunGraph sheets ts) ts)
        (fun k d hd => graphDeps_mem_universe _ ts k d hd)
        (dfsFuel (buildCoRunGraph sheets ts) ts) []
        (fun t ht => List.mem_append_left _ ht)
        (le_refl _)
        (fun b hb _ => absurd hb (List.not_mem_nil b))
        hfalse with ⟨v', _, hcover, hB'⟩
    rcases hcyc with ⟨x, hx⟩
    rcases Relation.TransGen.head'_iff.mp hx with ⟨c, hxc, _⟩
    rcases graphDeps_sub _ x c hxc with ⟨ds, hmem, _⟩
    have hxts : x ∈ ts :=
      buildCoRunGraph_keys sheets ts x (List.mem_map.mpr ⟨(x, ds), hmem, rfl⟩)
    exact (hB' x (hcover x hxts) (List.not_mem_nil x)).2 hx

/-- A three-row tasks dataset T1, T2, T3 whose dependency cells are
parameters. -/
def cycleTasks (d1 d2 d3 : String) : SheetData :=
  ⟨"Tasks", ["id", "dependencies"],
    [[("id", .str "T1"), ("dependencies", .str d1)],
     [("id", .str "T2"), ("dependencies", .str d2)],
     [("id", .str "T3"), ("dependencies", .str d3)]]⟩

/-- Sheets holding only the three-task dataset. -/
def cycleSheets (d1 d2 d3 : String) : Sheets :=
  ⟨emptySheet, emptySheet, cycleTasks d1 d2 d3⟩

/-- An active coRun rule over T1, T2, T3. -/
def coRunSampleRule : Rule :=
  ⟨"r1", .coRun, some ["T1", "T2", "T3"], none, none, none, none, none, none,
    none, true⟩

/-- C4: for every active coRun rule with tasks `ts`, the co-run check emits
exactly the one dataset-level error naming the rule task list when the
restricted dependency graph built from the tasks dataset has a directed
cycle, and nothing when it is acyclic; concretely, the 3-cycle
T1→T2→T3→T1 yields exactly that one error, and removing any one of the
three dependencies yields none. -/
theorem claim_C4 :
    (∀ (sheets : Sheets) (rule : Rule) (ts : List String),
        rule.tasks = some ts → isActiveCoRun rule = true →
        (GHasCycle (buildCoRunGraph sheets ts) →
          coRunErrors sheets [rule] =
            [createError .tasks (-1) "Rules"
              ("Circular dependency in co-run rule: " ++ jsJoin ", " ts) .error])
        ∧ (¬ GHasCycle (buildCoRunGraph sheets ts) →
            coRunErrors sheets [rule] = []))
    ∧ coRunErrors (cycleSheets "T2" "T3" "T1") [coRunSampleRule] =
        [createError .tasks (-1) "Rules"
          "Circular dependency in co-run rule: T1, T2, T3" .error]
    ∧ coRunErrors (cycleSheets "" "T3" "T1") [coRunSampleRule] = []
    ∧ coRunErrors (cycleSheets "T2" "" "T1") [coRunSampleRule] = []
    ∧ coRunErrors (cycleSheets "T2" "T3" "") [coRunSampleRule] = [] := by
  refine ⟨?_, rfl, rfl, rfl, rfl⟩
  intro sheets rule ts hts hact
  have hfilter : List.filter isActiveCoRun [rule] = [rule] := by
    simp [List.filter_cons, hact]
  have hun : coRunErrors sheets [rule] =
      (if dfsRoots (buildCoRunGraph sheets ts)
            (dfsFuel (buildCoRunGraph sheets ts) ts) ts [] then
        [createError .tasks (-1) "Rules"
          ("Circular dependency in co-run rule: " ++ jsJoin ", " ts) .error]
      else []) := by
    unfold coRunErrors
    rw [hfilter]
    simp only [List.flatMap_cons, List.flatMap_nil, List.append_nil, hts,
      Option.getD_some]
  constructor
  · intro hcyc
    rw [hun, if_pos ((coRun_check_iff sheets ts).mpr hcyc)]
  · intro hncyc
    rw [hun, if_neg (fun h => hncyc ((coRun_check_iff sheets ts).mp h))]

theorem claim_C4_witness :
    coRunErrors (cycleSheets "T2" "T3" "T1") [coRunSampleRule] =
      [createError .tasks (-1) "Rules"
        ("Circular dependency in co-run rule: " ++
          jsJoin ", " ["T1", "T2", "T3"]) .error] := by
  have e12 : Edge (buildCoRunGraph (cycleSheets "T2" "T3" "T1")
      ["T1", "T2", "T3"]) "T1" "T2" := by unfold Edge; decide
  have e23 : Edge (buildCoRunGraph (cycleSheets "T2" "T3" "T1")
      ["T1", "T2", "T3"]) "T2" "T3" := by unfold Edge; decide
  have e31 : Edge (buildCoRunGraph (cycleSheets "T2" "T3" "T1")
      ["T1", "T2", "T3"]) "T3" "T1" := by unfold Edge; decide
  exact (claim_C4.1 (cycleSheets "T2" "T3" "T1") coRunSampleRule ["T1", "T2", "T3"]
      rfl (by decide)).1
    ⟨"T1", Relation.TransGen.head e12
      (Relation.TransGen.head e23 (Relation.TransGen.single e31))⟩


end DataAlchemist
